import Mathlib

/-!
# The frame hand-off buffer of `src/video/videobuffer.h`

A shallow embedding of the two classes of the header:

* `ringbuffer<T, Size>`: a fixed array of `Size` slots with a write index
  `head_` and a read index `tail_`;
* `VideoDispatcher`: a `ringbuffer<cv::Mat, 60>` together with the two frame
  counters `latestFrameNumber` and `lastFrameRead`.

The embedding is sequential: one call runs to completion before the next one
starts, so an atomic load reads the field and an atomic store writes it.

Conventions.

* `size_t` indices are natural numbers.  While `head < Size` the sum `head + 1`
  is at most `Size`, which is itself a `size_t`, so `(current + 1) % Size` is
  computed without wrap-around on every index that addresses a slot.
* `int` counters are integers kept in the range of a 32-bit `int`, from
  `-2147483648` (`INT_MIN`) to `2147483647` (`INT_MAX`).  The increment
  `latestFrameNumber++` is computed modulo `2^32` in two's complement, so it
  wraps from `INT_MAX` to `INT_MIN`.
* `T ring_[Size]` is a list of slots.  Reading a slot outside the list gives the
  default value of `T` and writing one is dropped; both are the out-of-range
  branches of total list operations.
* `cv::Mat` is an arbitrary type `Mat` of frame values with a default value
  (the empty matrix); `frame.clone()` is the frame value itself.
-/

namespace VideoBuffer

/-! ## `ringbuffer<T, Size>` -/

/-- The data members of `ringbuffer<T, Size>`: the slot array `ring_` and the
two indices `head_` and `tail_`. -/
structure ringbuffer (T : Type) (Size : Nat) where
  ring_ : List T
  head_ : Nat
  tail_ : Nat
deriving DecidableEq

namespace ringbuffer

variable {T : Type} {Size : Nat}

/-- The constructor `ringbuffer() : head_(0), tail_(0) {}`; the `Size` slots are
default-constructed. -/
def new (T : Type) (Size : Nat) [Inhabited T] : ringbuffer T Size :=
  { ring_ := List.replicate Size default, head_ := 0, tail_ := 0 }

/-- The private member `next`: `return (current + 1) % Size;`. -/
def next (Size current : Nat) : Nat :=
  (current + 1) % Size

/-- The member `push`: the returned pair is the `bool` result and the state
after the call. -/
def push (s : ringbuffer T Size) (value : T) : Bool × ringbuffer T Size :=
  let head := s.head_
  let next_head := next Size head
  if next_head = s.tail_ then
    (false, s)
  else
    (true, { s with ring_ := s.ring_.set head value, head_ := next_head })

/-- The member `pop`: `value` is the content of the reference argument before the
call; the result is the `bool` result, the content of the reference argument
after the call, and the state after the call. -/
def pop [Inhabited T] (s : ringbuffer T Size) (value : T) : Bool × T × ringbuffer T Size :=
  let tail := s.tail_
  if tail = s.head_ then
    (false, value, s)
  else
    (true, s.ring_.getD tail default, { s with tail_ := next Size tail })

end ringbuffer

/-! ## `VideoDispatcher` -/

/-- The value of a 32-bit `int` that holds the integer `x` modulo `2^32`
(two's complement): the result lies between `-2147483648` and `2147483647`. -/
def wrapInt (x : Int) : Int :=
  (x + 2147483648) % 4294967296 - 2147483648

/-- The data members of `VideoDispatcher`. -/
structure VideoDispatcher (Mat : Type) where
  active : Bool
  latestFrameNumber : Int
  lastFrameRead : Int
  fps : Int
  mjpeg_url : String
  frameBuffer : ringbuffer Mat 60
deriving DecidableEq

namespace VideoDispatcher

variable {Mat : Type}

/-- The constructor `VideoDispatcher(std::string mjpeg_url, int fps)`. -/
def new (Mat : Type) [Inhabited Mat] (mjpeg_url : String) (fps : Int) : VideoDispatcher Mat :=
  { active := true
    latestFrameNumber := -1
    lastFrameRead := -1
    fps := fps
    mjpeg_url := mjpeg_url
    frameBuffer := ringbuffer.new Mat 60 }

/-- The member `getLatestFrame`: `frame` is the content of `*frame` before the
call; the result is the returned `int`, the content of `*frame` after the call,
and the state after the call. -/
def getLatestFrame [Inhabited Mat] (s : VideoDispatcher Mat) (frame : Mat) :
    Int × Mat × VideoDispatcher Mat :=
  if s.latestFrameNumber = s.lastFrameRead then
    (-1, frame, s)
  else
    let r := s.frameBuffer.pop frame
    let popped := r.1
    if !popped then
      (-1, r.2.1, { s with frameBuffer := r.2.2 })
    else
      let s1 := { s with frameBuffer := r.2.2, lastFrameRead := s.latestFrameNumber }
      (s1.lastFrameRead, r.2.1, s1)

/-- The member `setLatestFrame`: the result of `push` is discarded and the
counter is incremented in either case; the increment `latestFrameNumber++` is
an `int` increment, which wraps at `INT_MAX`. -/
def setLatestFrame (s : VideoDispatcher Mat) (frame : Mat) : VideoDispatcher Mat :=
  let r := s.frameBuffer.push frame
  { s with frameBuffer := r.2, latestFrameNumber := wrapInt (s.latestFrameNumber + 1) }

end VideoDispatcher

/-! ## The buffer as a queue -/

namespace ringbuffer

variable {T : Type} {Size : Nat}

/-- A state whose array has `Size` slots and whose indices address slots. -/
def wf (s : ringbuffer T Size) : Prop :=
  s.ring_.length = Size ∧ s.head_ < Size ∧ s.tail_ < Size

instance (s : ringbuffer T Size) : Decidable s.wf := by
  unfold wf
  infer_instance

/-- The slots met when stepping with `next` from index `i` until `head` is
reached, `head` excluded; at most `fuel` steps are taken. -/
def walk [Inhabited T] (Size : Nat) (ring : List T) (head : Nat) : Nat → Nat → List T
  | 0, _ => []
  | fuel + 1, i =>
    if i = head then [] else ring.getD i default :: walk Size ring head fuel (next Size i)

/-- The abstraction of a state: the list `ring[tail]`, `ring[next tail]`, ...,
up to but excluding `head`. -/
def contents [Inhabited T] (s : ringbuffer T Size) : List T :=
  walk Size s.ring_ s.head_ Size s.tail_

/-- The number `(head - tail) mod Size`, as the non-negative residue. -/
def live (s : ringbuffer T Size) : Int :=
  ((s.head_ : Int) - (s.tail_ : Int)) % (Size : Int)

/-- The same number computed on naturals. -/
def count (s : ringbuffer T Size) : Nat :=
  (s.head_ + Size - s.tail_) % Size

end ringbuffer

/-- The bounded first-in first-out queue the spec describes: a list with the
oldest element in front and at most `capacity` elements. -/
structure Fifo (T : Type) where
  items : List T
deriving DecidableEq

namespace Fifo

variable {T : Type}

/-- Appends `v` at the back unless the queue already holds `capacity` elements. -/
def enqueue (capacity : Nat) (q : Fifo T) (v : T) : Bool × Fifo T :=
  if q.items.length < capacity then (true, ⟨q.items ++ [v]⟩) else (false, q)

/-- Removes the front element and hands it out; an empty queue keeps `out`. -/
def dequeue (q : Fifo T) (out : T) : Bool × T × Fifo T :=
  match q.items with
  | [] => (false, out, q)
  | x :: xs => (true, x, ⟨xs⟩)

end Fifo

/-- One call made by the single user of a buffer. -/
inductive Call (T : Type) where
  | push (value : T)
  | pop
deriving DecidableEq

/-- A buffer in sequential use: the buffer, the variable the consumer passes to
`pop`, the result of every call so far, the values whose `push` returned `true`
and the values handed out by the calls of `pop` that returned `true`. -/
structure Run (T : Type) (Size : Nat) where
  buf : ringbuffer T Size
  out : T
  rets : List Bool
  pushed : List T
  popped : List T
deriving DecidableEq

namespace Run

variable {T : Type} {Size : Nat}

/-- A freshly constructed buffer; `out` is the consumer's variable. -/
def start (Size : Nat) [Inhabited T] (out : T) : Run T Size :=
  { buf := ringbuffer.new T Size, out := out, rets := [], pushed := [], popped := [] }

/-- Makes one call and records its result. -/
def call [Inhabited T] (r : Run T Size) : Call T → Run T Size
  | Call.push v =>
    let p := r.buf.push v
    { r with buf := p.2, rets := r.rets ++ [p.1],
             pushed := if p.1 then r.pushed ++ [v] else r.pushed }
  | Call.pop =>
    let p := r.buf.pop r.out
    { r with buf := p.2.2, out := p.2.1, rets := r.rets ++ [p.1],
             popped := if p.1 then r.popped ++ [p.2.1] else r.popped }

/-- Makes the calls of `cs` one after the other. -/
def calls [Inhabited T] (r : Run T Size) (cs : List (Call T)) : Run T Size :=
  cs.foldl call r

end Run

/-! ## A dispatcher in sequential use -/

/-- One call made on a dispatcher: the producer's `setLatestFrame` or the
consumer's `getLatestFrame`. -/
inductive DispatcherCall (Mat : Type) where
  | setLatestFrame (frame : Mat)
  | getLatestFrame
deriving DecidableEq

/-- A dispatcher in sequential use: the dispatcher, the frame variable the
consumer passes to `getLatestFrame`, the value returned by every call of
`getLatestFrame` so far, the number and frame of every call of `getLatestFrame`
that wrote a frame to the output, the frames passed to `setLatestFrame` so far,
and the number of calls of `setLatestFrame` made since the last call of
`getLatestFrame` that wrote a frame (or since construction). -/
structure DispatcherRun (Mat : Type) where
  disp : VideoDispatcher Mat
  out : Mat
  rets : List Int
  delivered : List (Int × Mat)
  supplied : List Mat
  pending : Nat
deriving DecidableEq

namespace DispatcherRun

variable {Mat : Type}

/-- A freshly constructed dispatcher; `out` is the consumer's frame variable. -/
def start [Inhabited Mat] (mjpeg_url : String) (fps : Int) (out : Mat) : DispatcherRun Mat :=
  { disp := VideoDispatcher.new Mat mjpeg_url fps, out := out, rets := [], delivered := [],
    supplied := [], pending := 0 }

/-- Whether a call of `getLatestFrame` on `s` reaches the assignment of
`lastFrameRead`, that is, passes the test on the counters and pops a frame. -/
def wrote [Inhabited Mat] (s : VideoDispatcher Mat) (frame : Mat) : Bool :=
  decide (s.latestFrameNumber ≠ s.lastFrameRead) && (s.frameBuffer.pop frame).1

/-- Makes one call and records it. -/
def call [Inhabited Mat] (r : DispatcherRun Mat) : DispatcherCall Mat → DispatcherRun Mat
  | DispatcherCall.setLatestFrame frame =>
    { r with disp := r.disp.setLatestFrame frame, supplied := r.supplied ++ [frame],
             pending := r.pending + 1 }
  | DispatcherCall.getLatestFrame =>
    let g := r.disp.getLatestFrame r.out
    let ok := wrote r.disp r.out
    { r with disp := g.2.2, out := g.2.1, rets := r.rets ++ [g.1],
             delivered := if ok then r.delivered ++ [(g.1, g.2.1)] else r.delivered,
             pending := if ok then 0 else r.pending }

/-- Makes the calls of `cs` one after the other. -/
def calls [Inhabited Mat] (r : DispatcherRun Mat) (cs : List (DispatcherCall Mat)) :
    DispatcherRun Mat :=
  cs.foldl call r

/-- The number of calls of `setLatestFrame` in `cs`.  On a freshly constructed
dispatcher the counter goes from `-1` to `INT_MAX` in `2147483648` increments,
so no increment overflows exactly when this number is at most `2147483648`. -/
def setCalls : List (DispatcherCall Mat) → Nat
  | [] => 0
  | DispatcherCall.setLatestFrame _ :: cs => setCalls cs + 1
  | DispatcherCall.getLatestFrame :: cs => setCalls cs

/-- What sequential use maintains: the ring is well-formed, `latestFrameNumber`
is the number of frames supplied minus one, the counters differ by the number of
pending calls, `lastFrameRead` is at least `-1`, the ring holds a frame whenever
a call is pending, and the numbers delivered are non-negative, at most
`lastFrameRead` and increasing. -/
structure Inv [Inhabited Mat] (r : DispatcherRun Mat) : Prop where
  ring : r.disp.frameBuffer.wf
  latest : r.disp.latestFrameNumber = (r.supplied.length : Int) - 1
  diff : r.disp.latestFrameNumber - r.disp.lastFrameRead = (r.pending : Int)
  floor : -1 ≤ r.disp.lastFrameRead
  held : 0 < r.pending → r.disp.frameBuffer.tail_ ≠ r.disp.frameBuffer.head_
  nums : ∀ x ∈ r.delivered, 0 ≤ x.1 ∧ x.1 ≤ r.disp.lastFrameRead
  incr : (r.delivered.map Prod.fst).Pairwise (fun a b => a < b)

end DispatcherRun

/-! ## Arithmetic on `int` values -/

theorem wrapInt_of_range {x : Int} (hlo : -2147483648 ≤ x) (hhi : x ≤ 2147483647) :
    wrapInt x = x := by
  unfold wrapInt
  omega

theorem wrapInt_range (x : Int) : -2147483648 ≤ wrapInt x ∧ wrapInt x ≤ 2147483647 := by
  unfold wrapInt
  omega

theorem wrapInt_succ_wrapInt (x : Int) (k : Int) :
    wrapInt (wrapInt (x + 1) + k) = wrapInt (x + (k + 1)) := by
  unfold wrapInt
  omega

theorem wrapInt_succ_ne (x : Int) : wrapInt (x + 1) ≠ x := by
  unfold wrapInt
  omega

/-! ## Arithmetic on indices -/

theorem mod_of_lt_two_mul {a n : Nat} (h : a < 2 * n) :
    a % n = if a < n then a else a - n := by
  split
  · exact Nat.mod_eq_of_lt ‹_›
  · rw [Nat.mod_eq_sub_mod (by omega), Nat.mod_eq_of_lt (by omega)]

namespace ringbuffer

variable {T : Type} {Size : Nat}

theorem next_lt {Size : Nat} (hSize : 0 < Size) (i : Nat) : next Size i < Size :=
  Nat.mod_lt _ hSize

theorem next_eq {Size i : Nat} (hi : i < Size) :
    next Size i = if i + 1 < Size then i + 1 else 0 := by
  unfold next
  rw [mod_of_lt_two_mul (by omega)]
  split_ifs <;> omega

theorem count_eq {s : ringbuffer T Size} (h : s.wf) :
    s.count = if s.tail_ ≤ s.head_ then s.head_ - s.tail_ else s.head_ + Size - s.tail_ := by
  obtain ⟨_, hh, ht⟩ := h
  unfold count
  rw [mod_of_lt_two_mul (by omega)]
  split_ifs <;> omega

theorem live_eq_count {s : ringbuffer T Size} (h : s.wf) : s.live = (s.count : Int) := by
  rw [count_eq h]
  obtain ⟨_, hh, ht⟩ := h
  unfold live
  split_ifs with hle
  · rw [Int.emod_eq_of_lt (by omega) (by omega)]
    omega
  · rw [← Int.add_emod_self, Int.emod_eq_of_lt (by omega) (by omega)]
    omega

theorem add_mod_eq {Size t k : Nat} (ht : t < Size) (hk : k < Size) :
    (t + k) % Size = if t + k < Size then t + k else t + k - Size :=
  mod_of_lt_two_mul (by omega)

/-! ## The walk as a list of slots -/

theorem walk_eq_map [Inhabited T] (ring : List T) (head : Nat) :
    ∀ (d fuel i : Nat), i < Size → d ≤ fuel → (i + d) % Size = head →
      (∀ k, k < d → (i + k) % Size ≠ head) →
      walk Size ring head fuel i
        = (List.range d).map (fun k => ring.getD ((i + k) % Size) default) := by
  intro d
  induction d with
  | zero =>
    intro fuel i hi _ hd _
    have : i = head := by rw [← hd]; simp [Nat.mod_eq_of_lt hi]
    cases fuel <;> simp [walk, this]
  | succ d ih =>
    intro fuel i hi hf hd hne
    obtain ⟨f, rfl⟩ : ∃ f, fuel = f + 1 := ⟨fuel - 1, by omega⟩
    have h0 : i ≠ head := by
      have := hne 0 (by omega)
      simpa [Nat.mod_eq_of_lt hi] using this
    have hS : 0 < Size := by omega
    have hstep : ∀ k, (next Size i + k) % Size = (i + (k + 1)) % Size := by
      intro k
      unfold next
      rw [Nat.mod_add_mod]
      congr 1
      omega
    rw [walk, if_neg h0, ih f (next Size i) (next_lt hS i) (by omega)
      (by rw [hstep]; exact hd) (fun k hk => by rw [hstep]; exact hne (k + 1) (by omega))]
    rw [List.range_succ_eq_map, List.map_cons, List.map_map]
    simp only [Nat.add_zero, Nat.mod_eq_of_lt hi]
    congr 1
    apply List.map_congr_left
    intro k _
    simp [hstep]

theorem contents_eq [Inhabited T] {s : ringbuffer T Size} (h : s.wf) :
    s.contents
      = (List.range s.count).map (fun k => s.ring_.getD ((s.tail_ + k) % Size) default) := by
  have hc := count_eq h
  obtain ⟨_, hh, ht⟩ := h
  unfold contents
  apply walk_eq_map _ _ _ _ _ ht
  · rw [hc]; split_ifs <;> omega
  · rw [hc]
    split_ifs
    · rw [add_mod_eq ht (by omega)]; split_ifs <;> omega
    · rw [add_mod_eq ht (by omega)]; split_ifs <;> omega
  · intro k hk
    rw [hc] at hk
    split_ifs at hk
    · rw [add_mod_eq ht (by omega)]; split_ifs <;> omega
    · rw [add_mod_eq ht (by omega)]; split_ifs <;> omega

theorem length_contents [Inhabited T] {s : ringbuffer T Size} (h : s.wf) :
    s.contents.length = s.count := by
  simp [contents_eq h]

end ringbuffer

/-! ## One call on a well-formed state -/

namespace ringbuffer

variable {T : Type} {Size : Nat}

theorem wf_new [Inhabited T] (hSize : 0 < Size) : (ringbuffer.new T Size).wf :=
  ⟨by simp [ringbuffer.new], hSize, hSize⟩

theorem contents_new [Inhabited T] : (ringbuffer.new T Size).contents = [] := by
  unfold contents ringbuffer.new
  cases Size <;> simp [walk]

theorem push_eq_of_full {s : ringbuffer T Size} (v : T) (h : next Size s.head_ = s.tail_) :
    s.push v = (false, s) := by
  simp [push, h]

theorem push_eq_of_not_full {s : ringbuffer T Size} (v : T) (h : next Size s.head_ ≠ s.tail_) :
    s.push v
      = (true, { s with ring_ := s.ring_.set s.head_ v, head_ := next Size s.head_ }) := by
  simp [push, h]

theorem pop_eq_of_empty [Inhabited T] {s : ringbuffer T Size} (out : T)
    (h : s.tail_ = s.head_) : s.pop out = (false, out, s) := by
  simp [pop, h]

theorem pop_eq_of_not_empty [Inhabited T] {s : ringbuffer T Size} (out : T)
    (h : s.tail_ ≠ s.head_) :
    s.pop out
      = (true, s.ring_.getD s.tail_ default, { s with tail_ := next Size s.tail_ }) := by
  simp [pop, h]

theorem full_iff_count {s : ringbuffer T Size} (h : s.wf) :
    next Size s.head_ = s.tail_ ↔ s.count + 1 = Size := by
  rw [count_eq h, next_eq h.2.1]
  obtain ⟨_, hh, ht⟩ := h
  split_ifs <;> omega

theorem empty_iff_count {s : ringbuffer T Size} (h : s.wf) :
    s.tail_ = s.head_ ↔ s.count = 0 := by
  rw [count_eq h]
  obtain ⟨_, hh, ht⟩ := h
  split_ifs <;> omega

theorem count_lt {s : ringbuffer T Size} (h : s.wf) : s.count < Size := by
  rw [count_eq h]
  obtain ⟨_, hh, ht⟩ := h
  split_ifs <;> omega

theorem wf_push {s : ringbuffer T Size} (h : s.wf) (v : T) : (s.push v).2.wf := by
  by_cases hf : next Size s.head_ = s.tail_
  · rw [push_eq_of_full v hf]; exact h
  · rw [push_eq_of_not_full v hf]
    obtain ⟨hl, hh, ht⟩ := h
    exact ⟨by simp [hl], next_lt (by omega) _, ht⟩

theorem wf_pop [Inhabited T] {s : ringbuffer T Size} (h : s.wf) (out : T) :
    (s.pop out).2.2.wf := by
  by_cases he : s.tail_ = s.head_
  · rw [pop_eq_of_empty out he]; exact h
  · rw [pop_eq_of_not_empty out he]
    obtain ⟨hl, hh, ht⟩ := h
    exact ⟨hl, hh, next_lt (by omega) _⟩

theorem contents_push [Inhabited T] {s : ringbuffer T Size} (h : s.wf) (v : T)
    (hf : next Size s.head_ ≠ s.tail_) : (s.push v).2.contents = s.contents ++ [v] := by
  have hw := wf_push h v
  have hc := count_eq h
  have hc2 := count_eq hw
  rw [contents_eq hw, contents_eq h]
  rw [push_eq_of_not_full v hf] at hc2 ⊢
  obtain ⟨hl, hh, ht⟩ := h
  have hn := next_eq hh
  have hnf : ¬ (if s.head_ + 1 < Size then s.head_ + 1 else 0) = s.tail_ := by
    rw [← hn]; exact hf
  simp only at hc2 ⊢
  have hcount : ({ s with ring_ := s.ring_.set s.head_ v, head_ := next Size s.head_ } :
      ringbuffer T Size).count = s.count + 1 := by
    rw [hc2, hc, hn]
    split_ifs at hnf ⊢ <;> omega
  rw [hcount, List.range_succ, List.map_append]
  congr 1
  · apply List.map_congr_left
    intro k hk
    have hk2 : k < s.count := List.mem_range.mp hk
    have hne : s.head_ ≠ (s.tail_ + k) % Size := by
      rw [hc] at hk2
      rw [add_mod_eq ht (by split_ifs at hk2 <;> omega)]
      split_ifs at hk2 ⊢ <;> omega
    simp [List.getD_eq_getElem?_getD, List.getElem?_set, hne]
  · have he : (s.tail_ + s.count) % Size = s.head_ := by
      rw [hc]
      split_ifs
      · rw [add_mod_eq ht (by omega)]; split_ifs <;> omega
      · rw [add_mod_eq ht (by omega)]; split_ifs <;> omega
    simp [List.getD_eq_getElem?_getD, List.getElem?_set, he, hl, hh]

theorem contents_pop [Inhabited T] {s : ringbuffer T Size} (h : s.wf) (out : T)
    (he : s.tail_ ≠ s.head_) :
    s.contents = (s.pop out).2.1 :: (s.pop out).2.2.contents := by
  have hw := wf_pop h out
  have hc := count_eq h
  have hc2 := count_eq hw
  rw [contents_eq hw, contents_eq h]
  rw [pop_eq_of_not_empty out he] at hc2 ⊢
  obtain ⟨hl, hh, ht⟩ := h
  have hn := next_eq ht
  simp only at hc2 ⊢
  have hcount : s.count
      = ({ s with tail_ := next Size s.tail_ } : ringbuffer T Size).count + 1 := by
    rw [hc2, hc, hn]
    split_ifs <;> omega
  rw [hcount, List.range_succ_eq_map, List.map_cons, List.map_map]
  simp only [Nat.add_zero, Nat.mod_eq_of_lt ht]
  congr 1
  apply List.map_congr_left
  intro k _
  simp only [Function.comp, next, Nat.mod_add_mod]
  congr 2
  omega

end ringbuffer

/-! ## One call, read on the queue -/

namespace ringbuffer

variable {T : Type} {Size : Nat}

theorem push_of_room [Inhabited T] {s : ringbuffer T Size} (h : s.wf) (v : T)
    (hroom : s.contents.length + 1 < Size) :
    (s.push v).1 = true ∧ (s.push v).2.contents = s.contents ++ [v] := by
  have hf : next Size s.head_ ≠ s.tail_ := by
    rw [Ne, full_iff_count h, ← length_contents h]; omega
  exact ⟨by rw [push_eq_of_not_full v hf], contents_push h v hf⟩

theorem push_of_full [Inhabited T] {s : ringbuffer T Size} (h : s.wf) (v : T)
    (hfull : s.contents.length + 1 = Size) : s.push v = (false, s) := by
  apply push_eq_of_full
  rw [full_iff_count h, ← length_contents h]; exact hfull

theorem pop_of_cons [Inhabited T] {s : ringbuffer T Size} (h : s.wf) (out : T)
    {x : T} {xs : List T} (hc : s.contents = x :: xs) :
    (s.pop out).1 = true ∧ (s.pop out).2.1 = x ∧ (s.pop out).2.2.contents = xs := by
  have he : s.tail_ ≠ s.head_ := by
    rw [Ne, empty_iff_count h, ← length_contents h, hc]; simp
  have h2 := contents_pop h out he
  rw [hc] at h2
  injection h2 with h3 h4
  exact ⟨by rw [pop_eq_of_not_empty out he], h3.symm, h4.symm⟩

theorem pop_of_nil [Inhabited T] {s : ringbuffer T Size} (h : s.wf) (out : T)
    (hc : s.contents = []) : s.pop out = (false, out, s) := by
  apply pop_eq_of_empty
  rw [empty_iff_count h, ← length_contents h, hc]; rfl

theorem length_contents_lt [Inhabited T] {s : ringbuffer T Size} (h : s.wf) :
    s.contents.length + 1 ≤ Size := by
  have := count_lt h
  rw [length_contents h]; omega

theorem push_refines [Inhabited T] {s : ringbuffer T Size} (h : s.wf) (v : T) :
    (s.push v).1 = (Fifo.enqueue (Size - 1) ⟨s.contents⟩ v).1 ∧
      (s.push v).2.contents = (Fifo.enqueue (Size - 1) ⟨s.contents⟩ v).2.items := by
  have hle := length_contents_lt h
  by_cases hroom : s.contents.length + 1 < Size
  · have := push_of_room h v hroom
    have hlt : s.contents.length < Size - 1 := by omega
    simp [Fifo.enqueue, hlt, this]
  · have hfull : s.contents.length + 1 = Size := by omega
    have hlt : ¬ s.contents.length < Size - 1 := by omega
    simp [Fifo.enqueue, hlt, push_of_full h v hfull]

theorem pop_refines [Inhabited T] {s : ringbuffer T Size} (h : s.wf) (out : T) :
    (s.pop out).1 = (Fifo.dequeue ⟨s.contents⟩ out).1 ∧
      (s.pop out).2.1 = (Fifo.dequeue ⟨s.contents⟩ out).2.1 ∧
      (s.pop out).2.2.contents = (Fifo.dequeue ⟨s.contents⟩ out).2.2.items := by
  cases hc : s.contents with
  | nil => simp [Fifo.dequeue, pop_of_nil h out hc, hc]
  | cons x xs => simpa [Fifo.dequeue] using pop_of_cons h out hc

end ringbuffer

/-! ## Sequences of calls -/

namespace Run

variable {T : Type} {Size : Nat}

theorem calls_nil [Inhabited T] (r : Run T Size) : r.calls [] = r := rfl

theorem calls_cons [Inhabited T] (r : Run T Size) (c : Call T) (cs : List (Call T)) :
    r.calls (c :: cs) = (r.call c).calls cs := rfl

theorem calls_append [Inhabited T] (r : Run T Size) (cs ds : List (Call T)) :
    r.calls (cs ++ ds) = (r.calls cs).calls ds := by
  simp [calls, List.foldl_append]

theorem wf_call [Inhabited T] {r : Run T Size} (h : r.buf.wf) (c : Call T) :
    (r.call c).buf.wf := by
  cases c with
  | push v => exact ringbuffer.wf_push h v
  | pop => exact ringbuffer.wf_pop h r.out

theorem wf_calls [Inhabited T] (cs : List (Call T)) :
    ∀ {r : Run T Size}, r.buf.wf → (r.calls cs).buf.wf := by
  induction cs with
  | nil => intro r h; exact h
  | cons c cs ih => intro r h; exact ih (wf_call h c)

theorem wf_start [Inhabited T] (hSize : 0 < Size) (out : T) (cs : List (Call T)) :
    ((Run.start Size out).calls cs).buf.wf :=
  wf_calls cs (ringbuffer.wf_new hSize)

theorem queue_call [Inhabited T] {r : Run T Size} (h : r.buf.wf)
    (hq : r.popped ++ r.buf.contents = r.pushed) (c : Call T) :
    (r.call c).popped ++ (r.call c).buf.contents = (r.call c).pushed := by
  cases c with
  | push v =>
    have hle := ringbuffer.length_contents_lt h
    by_cases hroom : r.buf.contents.length + 1 < Size
    · obtain ⟨h1, h2⟩ := ringbuffer.push_of_room h v hroom
      simp [call, h1, h2, ← hq]
    · have h1 := ringbuffer.push_of_full h v (by omega)
      simp [call, h1, hq]
  | pop =>
    cases hc : r.buf.contents with
    | nil =>
      have h1 := ringbuffer.pop_of_nil h r.out hc
      simp [call, h1, hc, ← hq]
    | cons x xs =>
      obtain ⟨h1, h2, h3⟩ := ringbuffer.pop_of_cons h r.out hc
      simp [call, h1, h2, h3, ← hq, hc]

theorem queue_calls [Inhabited T] (cs : List (Call T)) :
    ∀ {r : Run T Size}, r.buf.wf → r.popped ++ r.buf.contents = r.pushed →
      (r.calls cs).popped ++ (r.calls cs).buf.contents = (r.calls cs).pushed := by
  induction cs with
  | nil => intro r _ hq; exact hq
  | cons c cs ih => intro r h hq; exact ih (wf_call h c) (queue_call h hq c)

theorem queue_start [Inhabited T] (hSize : 0 < Size) (out : T) (cs : List (Call T)) :
    ((Run.start Size out).calls cs).popped ++ ((Run.start Size out).calls cs).buf.contents
      = ((Run.start Size out).calls cs).pushed :=
  queue_calls cs (ringbuffer.wf_new hSize) (by simp [start, ringbuffer.contents_new])

end Run

/-! ## Batches of calls -/

namespace Run

variable {T : Type} {Size : Nat}

theorem call_push_of_room [Inhabited T] {r : Run T Size} (h : r.buf.wf) (v : T)
    (hroom : r.buf.contents.length + 1 < Size) :
    (r.call (Call.push v)).buf.wf ∧
      (r.call (Call.push v)).buf.contents = r.buf.contents ++ [v] ∧
      (r.call (Call.push v)).rets = r.rets ++ [true] ∧
      (r.call (Call.push v)).pushed = r.pushed ++ [v] ∧
      (r.call (Call.push v)).popped = r.popped ∧
      (r.call (Call.push v)).out = r.out := by
  obtain ⟨h1, h2⟩ := ringbuffer.push_of_room h v hroom
  exact ⟨wf_call h _, by simpa [call] using h2, by simp [call, h1], by simp [call, h1],
    rfl, rfl⟩

theorem call_push_of_full [Inhabited T] {r : Run T Size} (h : r.buf.wf) (v : T)
    (hfull : r.buf.contents.length + 1 = Size) :
    r.call (Call.push v) = { r with rets := r.rets ++ [false] } := by
  simp [call, ringbuffer.push_of_full h v hfull]

theorem call_pop_of_cons [Inhabited T] {r : Run T Size} (h : r.buf.wf)
    {x : T} {xs : List T} (hc : r.buf.contents = x :: xs) :
    (r.call Call.pop).buf.wf ∧
      (r.call Call.pop).buf.contents = xs ∧
      (r.call Call.pop).rets = r.rets ++ [true] ∧
      (r.call Call.pop).pushed = r.pushed ∧
      (r.call Call.pop).popped = r.popped ++ [x] ∧
      (r.call Call.pop).out = x := by
  obtain ⟨h1, h2, h3⟩ := ringbuffer.pop_of_cons h r.out hc
  exact ⟨wf_call h _, by simpa [call] using h3, by simp [call, h1], rfl,
    by simp [call, h1, h2], by simpa [call] using h2⟩

theorem calls_pushes [Inhabited T] (vs : List T) :
    ∀ {r : Run T Size}, r.buf.wf → r.buf.contents.length + vs.length + 1 ≤ Size →
      (r.calls (vs.map Call.push)).buf.wf ∧
        (r.calls (vs.map Call.push)).buf.contents = r.buf.contents ++ vs ∧
        (r.calls (vs.map Call.push)).rets = r.rets ++ List.replicate vs.length true ∧
        (r.calls (vs.map Call.push)).pushed = r.pushed ++ vs ∧
        (r.calls (vs.map Call.push)).popped = r.popped ∧
        (r.calls (vs.map Call.push)).out = r.out := by
  induction vs with
  | nil => intro r h _; simp [calls_nil, h]
  | cons v vs ih =>
    intro r h hlen
    simp only [List.length_cons] at hlen
    obtain ⟨a1, a2, a3, a4, a5, a6⟩ := call_push_of_room h v (by omega)
    obtain ⟨b1, b2, b3, b4, b5, b6⟩ :=
      ih a1 (by rw [a2]; simp only [List.length_append, List.length_singleton]; omega)
    simp only [List.map_cons, calls_cons]
    refine ⟨b1, ?_, ?_, ?_, ?_, ?_⟩
    · rw [b2, a2]; simp
    · rw [b3, a3]; simp [List.replicate_succ]
    · rw [b4, a4]; simp
    · rw [b5, a5]
    · rw [b6, a6]

theorem calls_pops [Inhabited T] (xs : List T) :
    ∀ {r : Run T Size} (ys : List T), r.buf.wf → r.buf.contents = xs ++ ys →
      (r.calls (List.replicate xs.length Call.pop)).buf.wf ∧
        (r.calls (List.replicate xs.length Call.pop)).buf.contents = ys ∧
        (r.calls (List.replicate xs.length Call.pop)).rets
          = r.rets ++ List.replicate xs.length true ∧
        (r.calls (List.replicate xs.length Call.pop)).pushed = r.pushed ∧
        (r.calls (List.replicate xs.length Call.pop)).popped = r.popped ++ xs ∧
        (r.calls (List.replicate xs.length Call.pop)).out = xs.getLast?.getD r.out := by
  induction xs with
  | nil => intro r ys h hc; simp [calls_nil, h, hc]
  | cons x xs ih =>
    intro r ys h hc
    obtain ⟨a1, a2, a3, a4, a5, a6⟩ := call_pop_of_cons h hc
    obtain ⟨b1, b2, b3, b4, b5, b6⟩ := ih ys a1 a2
    simp only [List.length_cons, List.replicate_succ, calls_cons]
    refine ⟨b1, b2, ?_, ?_, ?_, ?_⟩
    · rw [b3, a3]; simp
    · rw [b4, a4]
    · rw [b5, a5]; simp
    · rw [b6, a6]; simp [List.getLast?_cons]

end Run

/-! ## One call on a dispatcher -/

namespace ringbuffer

variable {T : Type} {Size : Nat}

theorem push_not_empty [Inhabited T] {s : ringbuffer T Size} (h : s.wf) (hSize : 2 ≤ Size)
    (v : T) : (s.push v).2.tail_ ≠ (s.push v).2.head_ := by
  have hw := wf_push h v
  have hle := length_contents_lt h
  rw [Ne, empty_iff_count hw, ← length_contents hw]
  by_cases hroom : s.contents.length + 1 < Size
  · rw [(push_of_room h v hroom).2]; simp
  · rw [push_of_full h v (by omega)]
    show ¬ s.contents.length = 0
    omega

end ringbuffer

namespace VideoDispatcher

variable {Mat : Type}

theorem getLatestFrame_of_equal [Inhabited Mat] {s : VideoDispatcher Mat} (frame : Mat)
    (h : s.latestFrameNumber = s.lastFrameRead) : s.getLatestFrame frame = (-1, frame, s) := by
  simp [getLatestFrame, h]

theorem getLatestFrame_of_empty [Inhabited Mat] {s : VideoDispatcher Mat} (frame : Mat)
    (he : s.frameBuffer.tail_ = s.frameBuffer.head_) :
    s.getLatestFrame frame = (-1, frame, s) := by
  by_cases h : s.latestFrameNumber = s.lastFrameRead
  · exact getLatestFrame_of_equal frame h
  · simp [getLatestFrame, h, ringbuffer.pop_eq_of_empty frame he]

theorem getLatestFrame_of_new [Inhabited Mat] {s : VideoDispatcher Mat} (frame : Mat)
    (h : s.latestFrameNumber ≠ s.lastFrameRead)
    (he : s.frameBuffer.tail_ ≠ s.frameBuffer.head_) :
    s.getLatestFrame frame
      = (s.latestFrameNumber, (s.frameBuffer.pop frame).2.1,
          { s with frameBuffer := (s.frameBuffer.pop frame).2.2,
                   lastFrameRead := s.latestFrameNumber }) := by
  simp [getLatestFrame, h, ringbuffer.pop_eq_of_not_empty frame he]

end VideoDispatcher

namespace DispatcherRun

variable {Mat : Type}

theorem run_nil [Inhabited Mat] (r : DispatcherRun Mat) : r.calls [] = r := rfl

theorem run_cons [Inhabited Mat] (r : DispatcherRun Mat) (c : DispatcherCall Mat)
    (cs : List (DispatcherCall Mat)) : r.calls (c :: cs) = (r.call c).calls cs := rfl

theorem run_append [Inhabited Mat] (r : DispatcherRun Mat)
    (cs ds : List (DispatcherCall Mat)) : r.calls (cs ++ ds) = (r.calls cs).calls ds := by
  simp [calls, List.foldl_append]

theorem wrote_of_equal [Inhabited Mat] {s : VideoDispatcher Mat} (frame : Mat)
    (h : s.latestFrameNumber = s.lastFrameRead) : wrote s frame = false := by
  simp [wrote, h]

theorem wrote_of_new [Inhabited Mat] {s : VideoDispatcher Mat} (frame : Mat)
    (h : s.latestFrameNumber ≠ s.lastFrameRead)
    (he : s.frameBuffer.tail_ ≠ s.frameBuffer.head_) : wrote s frame = true := by
  simp [wrote, h, ringbuffer.pop_eq_of_not_empty frame he]

theorem call_get_of_equal [Inhabited Mat] {r : DispatcherRun Mat}
    (h : r.disp.latestFrameNumber = r.disp.lastFrameRead) :
    r.call DispatcherCall.getLatestFrame = { r with rets := r.rets ++ [-1] } := by
  simp [call, VideoDispatcher.getLatestFrame_of_equal r.out h, wrote_of_equal r.out h]

theorem call_get_of_new [Inhabited Mat] {r : DispatcherRun Mat}
    (h : r.disp.latestFrameNumber ≠ r.disp.lastFrameRead)
    (he : r.disp.frameBuffer.tail_ ≠ r.disp.frameBuffer.head_) :
    r.call DispatcherCall.getLatestFrame
      = { disp := { r.disp with frameBuffer := (r.disp.frameBuffer.pop r.out).2.2,
                                lastFrameRead := r.disp.latestFrameNumber },
          out := (r.disp.frameBuffer.pop r.out).2.1,
          rets := r.rets ++ [r.disp.latestFrameNumber],
          delivered := r.delivered
            ++ [(r.disp.latestFrameNumber, (r.disp.frameBuffer.pop r.out).2.1)],
          supplied := r.supplied,
          pending := 0 } := by
  simp [call, VideoDispatcher.getLatestFrame_of_new r.out h he, wrote_of_new r.out h he]

theorem inv_start [Inhabited Mat] (mjpeg_url : String) (fps : Int) (out : Mat) :
    (start mjpeg_url fps out).Inv where
  ring := ringbuffer.wf_new (by decide)
  latest := rfl
  diff := rfl
  floor := by show (-1 : Int) ≤ -1; decide
  held := by intro h; exact absurd h (Nat.lt_irrefl 0)
  nums := by intro x hx; simp [start] at hx
  incr := by simp [start]

theorem inv_call_set [Inhabited Mat] {r : DispatcherRun Mat} (h : r.Inv) (frame : Mat)
    (hroom : r.supplied.length < 2147483648) :
    (r.call (DispatcherCall.setLatestFrame frame)).Inv where
  ring := ringbuffer.wf_push h.ring frame
  latest := by
    have := h.latest
    simp only [call, VideoDispatcher.setLatestFrame, List.length_append, List.length_singleton]
    rw [wrapInt_of_range (by omega) (by omega)]
    push_cast
    omega
  diff := by
    have := h.diff
    have := h.latest
    simp only [call, VideoDispatcher.setLatestFrame]
    rw [wrapInt_of_range (by omega) (by omega)]
    push_cast
    omega
  floor := h.floor
  held := fun _ => ringbuffer.push_not_empty h.ring (by decide) frame
  nums := h.nums
  incr := h.incr

theorem inv_call_get [Inhabited Mat] {r : DispatcherRun Mat} (h : r.Inv) :
    (r.call DispatcherCall.getLatestFrame).Inv := by
  by_cases hp : r.disp.latestFrameNumber = r.disp.lastFrameRead
  · rw [call_get_of_equal hp]
    exact ⟨h.ring, h.latest, h.diff, h.floor, h.held, h.nums, h.incr⟩
  · have hd := h.diff
    have hf := h.floor
    have hpos : 0 < r.pending := by omega
    have he := h.held hpos
    rw [call_get_of_new hp he]
    refine ⟨ringbuffer.wf_pop h.ring r.out, h.latest, by simp, by simp only; omega,
      fun h0 => absurd h0 (Nat.lt_irrefl 0), ?_, ?_⟩
    · intro x hx
      simp only [List.mem_append, List.mem_singleton] at hx
      rcases hx with hx | rfl
      · have := h.nums x hx
        simp only
        omega
      · simp only
        omega
    · simp only [List.map_append, List.map_cons, List.map_nil]
      rw [List.pairwise_append]
      refine ⟨h.incr, by simp, ?_⟩
      intro a ha b hb
      simp only [List.mem_singleton] at hb
      subst hb
      obtain ⟨x, hx, rfl⟩ := List.mem_map.mp ha
      have := h.nums x hx
      omega

theorem inv_calls [Inhabited Mat] (cs : List (DispatcherCall Mat)) :
    ∀ {r : DispatcherRun Mat}, r.Inv → r.supplied.length + setCalls cs ≤ 2147483648 →
      (r.calls cs).Inv := by
  induction cs with
  | nil => intro r h _; exact h
  | cons c cs ih =>
    intro r h hno
    cases c with
    | setLatestFrame frame =>
      simp only [setCalls] at hno
      refine ih (inv_call_set h frame (by omega)) ?_
      show (r.supplied ++ [frame]).length + setCalls cs ≤ 2147483648
      simp only [List.length_append, List.length_singleton]
      omega
    | getLatestFrame =>
      simp only [setCalls] at hno
      exact ih (inv_call_get h) hno

theorem inv_run [Inhabited Mat] (mjpeg_url : String) (fps : Int) (out : Mat)
    (cs : List (DispatcherCall Mat)) (hno : setCalls cs ≤ 2147483648) :
    ((start mjpeg_url fps out).calls cs).Inv :=
  inv_calls cs (inv_start mjpeg_url fps out) (by simpa [start] using hno)

theorem wf_run_call [Inhabited Mat] {r : DispatcherRun Mat} (h : r.disp.frameBuffer.wf)
    (c : DispatcherCall Mat) : (r.call c).disp.frameBuffer.wf := by
  cases c with
  | setLatestFrame frame => exact ringbuffer.wf_push h frame
  | getLatestFrame =>
    by_cases hp : r.disp.latestFrameNumber = r.disp.lastFrameRead
    · rw [call_get_of_equal hp]; exact h
    · by_cases he : r.disp.frameBuffer.tail_ = r.disp.frameBuffer.head_
      · show (r.disp.getLatestFrame r.out).2.2.frameBuffer.wf
        rw [VideoDispatcher.getLatestFrame_of_empty r.out he]; exact h
      · rw [call_get_of_new hp he]; exact ringbuffer.wf_pop h r.out

theorem wf_run [Inhabited Mat] (mjpeg_url : String) (fps : Int) (out : Mat)
    (cs : List (DispatcherCall Mat)) :
    ((start mjpeg_url fps out).calls cs).disp.frameBuffer.wf := by
  have : ∀ (cs : List (DispatcherCall Mat)) (r : DispatcherRun Mat),
      r.disp.frameBuffer.wf → (r.calls cs).disp.frameBuffer.wf := by
    intro cs
    induction cs with
    | nil => intro r h; exact h
    | cons c cs ih => intro r h; exact ih _ (wf_run_call h c)
  exact this cs _ (ringbuffer.wf_new (by decide))

end DispatcherRun

/-! ## Batches of calls on a dispatcher -/

namespace DispatcherRun

variable {Mat : Type}

theorem call_set_contents [Inhabited Mat] {r : DispatcherRun Mat}
    (h : r.disp.frameBuffer.wf) (frame : Mat) :
    (r.call (DispatcherCall.setLatestFrame frame)).disp.frameBuffer.contents
      = r.disp.frameBuffer.contents
          ++ [frame].take (59 - r.disp.frameBuffer.contents.length) := by
  have hle := ringbuffer.length_contents_lt h
  show (r.disp.frameBuffer.push frame).2.contents = _
  by_cases hroom : r.disp.frameBuffer.contents.length + 1 < 60
  · rw [(ringbuffer.push_of_room h frame hroom).2]
    have : 59 - r.disp.frameBuffer.contents.length
        = (58 - r.disp.frameBuffer.contents.length) + 1 := by omega
    rw [this]
    simp
  · rw [ringbuffer.push_of_full h frame (by omega)]
    have : 59 - r.disp.frameBuffer.contents.length = 0 := by omega
    rw [this]
    simp

theorem calls_sets [Inhabited Mat] (frames : List Mat) :
    ∀ {r : DispatcherRun Mat}, r.disp.frameBuffer.wf →
      (r.calls (frames.map DispatcherCall.setLatestFrame)).disp.frameBuffer.wf ∧
        (r.calls (frames.map DispatcherCall.setLatestFrame)).disp.frameBuffer.contents
          = r.disp.frameBuffer.contents
              ++ frames.take (59 - r.disp.frameBuffer.contents.length) ∧
        (wrapInt r.disp.latestFrameNumber = r.disp.latestFrameNumber →
          (r.calls (frames.map DispatcherCall.setLatestFrame)).disp.latestFrameNumber
            = wrapInt (r.disp.latestFrameNumber + (frames.length : Int))) ∧
        (r.calls (frames.map DispatcherCall.setLatestFrame)).disp.lastFrameRead
          = r.disp.lastFrameRead ∧
        (r.calls (frames.map DispatcherCall.setLatestFrame)).out = r.out ∧
        (r.calls (frames.map DispatcherCall.setLatestFrame)).rets = r.rets ∧
        (r.calls (frames.map DispatcherCall.setLatestFrame)).delivered = r.delivered := by
  induction frames with
  | nil =>
    intro r h
    refine ⟨h, by simp [run_nil], ?_, rfl, rfl, rfl, rfl⟩
    intro hr
    simp only [List.map_nil, run_nil, List.length_nil, Int.Nat.cast_ofNat_Int, Int.add_zero]
    exact hr.symm
  | cons f fs ih =>
    intro r h
    have hw : (r.call (DispatcherCall.setLatestFrame f)).disp.frameBuffer.wf :=
      ringbuffer.wf_push h f
    have hc := call_set_contents h f
    have hle := ringbuffer.length_contents_lt h
    obtain ⟨b1, b2, b3, b4, b5, b6, b7⟩ := ih hw
    simp only [List.map_cons, run_cons]
    refine ⟨b1, ?_, ?_, ?_, ?_, ?_, ?_⟩
    · rw [b2, hc]
      by_cases hroom : r.disp.frameBuffer.contents.length + 1 < 60
      · have e1 : 59 - r.disp.frameBuffer.contents.length
            = (58 - r.disp.frameBuffer.contents.length) + 1 := by omega
        rw [e1]
        simp only [List.take_succ_cons, List.take_nil, List.length_append,
          List.length_singleton, List.append_assoc, List.singleton_append]
        have e2 : 59 - (r.disp.frameBuffer.contents.length + 1)
            = 58 - r.disp.frameBuffer.contents.length := by omega
        rw [e2]
      · have e1 : 59 - r.disp.frameBuffer.contents.length = 0 := by omega
        rw [e1]
        simp [e1]
    · intro _
      have hidem : wrapInt (r.call (DispatcherCall.setLatestFrame f)).disp.latestFrameNumber
          = (r.call (DispatcherCall.setLatestFrame f)).disp.latestFrameNumber := by
        show wrapInt (wrapInt (r.disp.latestFrameNumber + 1)) = _
        have := wrapInt_succ_wrapInt r.disp.latestFrameNumber 0
        simpa using this
      rw [b3 hidem]
      show wrapInt (wrapInt (r.disp.latestFrameNumber + 1) + (fs.length : Int)) = _
      rw [wrapInt_succ_wrapInt]
      simp only [List.length_cons]
      push_cast
      rfl
    · rw [b4]; rfl
    · rw [b5]; rfl
    · rw [b6]; rfl
    · rw [b7]; rfl

theorem calls_gets_of_equal [Inhabited Mat] (n : Nat) :
    ∀ {r : DispatcherRun Mat}, r.disp.latestFrameNumber = r.disp.lastFrameRead →
      r.calls (List.replicate n DispatcherCall.getLatestFrame)
        = { r with rets := r.rets ++ List.replicate n (-1) } := by
  induction n with
  | zero => intro r _; simp [run_nil]
  | succ n ih =>
    intro r h
    rw [List.replicate_succ, run_cons, call_get_of_equal h, ih (by exact h)]
    simp [List.replicate_succ]

end DispatcherRun

/-! ## A burst of frames followed by reads -/

namespace DispatcherRun

variable {Mat : Type}

theorem take_append_head (l : List Mat) (g : Mat) :
    ∃ tl, l.take 58 ++ [g] = (l.head?.getD g) :: tl := by
  cases l with
  | nil => exact ⟨[], rfl⟩
  | cons a l => exact ⟨l.take 57 ++ [g], rfl⟩

theorem not_empty_of_contents [Inhabited Mat] {s : ringbuffer Mat 60} (h : s.wf)
    {x : Mat} {xs : List Mat} (hc : s.contents = x :: xs) : s.tail_ ≠ s.head_ := by
  rw [Ne, ringbuffer.empty_iff_count h, ← ringbuffer.length_contents h, hc]
  simp

theorem wrote_iff [Inhabited Mat] (s : VideoDispatcher Mat) (frame : Mat) :
    wrote s frame = true ↔
      s.latestFrameNumber ≠ s.lastFrameRead ∧ s.frameBuffer.tail_ ≠ s.frameBuffer.head_ := by
  by_cases he : s.frameBuffer.tail_ = s.frameBuffer.head_
  · simp [wrote, ringbuffer.pop_eq_of_empty frame he, he]
  · simp [wrote, ringbuffer.pop_eq_of_not_empty frame he, he]

theorem counters_after_sets [Inhabited Mat] (mjpeg_url : String) (fps : Int) (out : Mat)
    (frames : List Mat) :
    ((start mjpeg_url fps out).calls
        (frames.map DispatcherCall.setLatestFrame)).disp.latestFrameNumber
      = wrapInt (-1 + (frames.length : Int)) ∧
    ((start mjpeg_url fps out).calls
        (frames.map DispatcherCall.setLatestFrame)).disp.lastFrameRead = -1 ∧
    ((start mjpeg_url fps out).calls (frames.map DispatcherCall.setLatestFrame)).rets = [] ∧
    ((start mjpeg_url fps out).calls (frames.map DispatcherCall.setLatestFrame)).delivered
      = [] := by
  obtain ⟨_, _, a3, a4, _, a6, a7⟩ :=
    calls_sets frames (r := start mjpeg_url fps out) (ringbuffer.wf_new (by decide))
  exact ⟨a3 (wrapInt_of_range (x := -1) (by decide) (by decide)), a4, a6, a7⟩

theorem get_after_wrapped_sets [Inhabited Mat] (mjpeg_url : String) (fps : Int) (out : Mat)
    (frames : List Mat) (hwrap : wrapInt (-1 + (frames.length : Int)) = -1) :
    ((start mjpeg_url fps out).calls
        (frames.map DispatcherCall.setLatestFrame ++ [DispatcherCall.getLatestFrame])).rets
      = [-1] ∧
    ((start mjpeg_url fps out).calls
        (frames.map DispatcherCall.setLatestFrame
          ++ [DispatcherCall.getLatestFrame])).delivered = [] := by
  obtain ⟨a3, a4, a6, a7⟩ := counters_after_sets mjpeg_url fps out frames
  rw [hwrap] at a3
  rw [run_append, run_cons, run_nil, call_get_of_equal (a3.trans a4.symm)]
  exact ⟨by show _ ++ [(-1 : Int)] = _; rw [a6]; rfl, a7⟩

/-- The run after a burst of frames `first :: rest` and `n + 1` reads. -/
theorem calls_burst [Inhabited Mat] (mjpeg_url : String) (fps : Int) (out first : Mat)
    (rest : List Mat) (n : Nat) (hm : rest.length + 1 ≤ 2147483648) :
    ∃ fb : ringbuffer Mat 60, fb.wf ∧ fb.contents = rest.take 58 ∧
      (start mjpeg_url fps out).calls
          ((first :: rest).map DispatcherCall.setLatestFrame
            ++ List.replicate (n + 1) DispatcherCall.getLatestFrame)
        = { disp := { active := true, latestFrameNumber := (rest.length : Int),
                      lastFrameRead := (rest.length : Int), fps := fps,
                      mjpeg_url := mjpeg_url, frameBuffer := fb },
            out := first,
            rets := (rest.length : Int) :: List.replicate n (-1),
            delivered := [((rest.length : Int), first)],
            supplied := first :: rest,
            pending := 0 } := by
  have h0 : (start mjpeg_url fps out).disp.frameBuffer.wf := ringbuffer.wf_new (by decide)
  have hc0 : (start mjpeg_url fps out).disp.frameBuffer.contents = [] :=
    ringbuffer.contents_new
  obtain ⟨a1, a2, a3, a4, a5, a6, a7⟩ := calls_sets (first :: rest) h0
  have a3 := a3 (wrapInt_of_range (x := -1) (by decide) (by decide))
  have a8 : ((start mjpeg_url fps out).calls
      ((first :: rest).map DispatcherCall.setLatestFrame)).supplied = first :: rest := by
    have : ∀ (fs : List Mat) (r : DispatcherRun Mat),
        (r.calls (fs.map DispatcherCall.setLatestFrame)).supplied = r.supplied ++ fs := by
      intro fs
      induction fs with
      | nil => intro r; simp [run_nil]
      | cons f fs ih => intro r; rw [List.map_cons, run_cons, ih]; simp [call]
    rw [this]; rfl
  have a9 : ((start mjpeg_url fps out).calls
      ((first :: rest).map DispatcherCall.setLatestFrame)).disp.active = true ∧
      ((start mjpeg_url fps out).calls
      ((first :: rest).map DispatcherCall.setLatestFrame)).disp.fps = fps ∧
      ((start mjpeg_url fps out).calls
      ((first :: rest).map DispatcherCall.setLatestFrame)).disp.mjpeg_url = mjpeg_url := by
    have : ∀ (fs : List Mat) (r : DispatcherRun Mat),
        (r.calls (fs.map DispatcherCall.setLatestFrame)).disp.active = r.disp.active ∧
        (r.calls (fs.map DispatcherCall.setLatestFrame)).disp.fps = r.disp.fps ∧
        (r.calls (fs.map DispatcherCall.setLatestFrame)).disp.mjpeg_url
          = r.disp.mjpeg_url := by
      intro fs
      induction fs with
      | nil => intro r; simp [run_nil]
      | cons f fs ih =>
        intro r
        rw [List.map_cons, run_cons]
        obtain ⟨i1, i2, i3⟩ := ih (r.call (DispatcherCall.setLatestFrame f))
        exact ⟨i1, i2, i3⟩
    exact this _ _
  rw [hc0] at a2
  simp only [List.nil_append, List.length_nil, Nat.sub_zero, List.take_succ_cons] at a2
  rw [show (start mjpeg_url fps out).disp.latestFrameNumber = -1 from rfl] at a3
  rw [show (start mjpeg_url fps out).disp.lastFrameRead = -1 from rfl] at a4
  rw [show (start mjpeg_url fps out).out = out from rfl] at a5
  rw [show (start mjpeg_url fps out).rets = [] from rfl] at a6
  rw [show (start mjpeg_url fps out).delivered = [] from rfl] at a7
  simp only [List.length_cons] at a3
  rw [wrapInt_of_range (by push_cast; omega) (by push_cast; omega)] at a3
  simp only [run_append]
  generalize (start mjpeg_url fps out).calls
    ((first :: rest).map DispatcherCall.setLatestFrame) = r1 at *
  have hp : r1.disp.latestFrameNumber ≠ r1.disp.lastFrameRead := by
    rw [a3, a4]; push_cast; omega
  have he := not_empty_of_contents a1 a2
  obtain ⟨p1, p2, p3⟩ := ringbuffer.pop_of_cons a1 r1.out a2
  refine ⟨(r1.disp.frameBuffer.pop r1.out).2.2, ringbuffer.wf_pop a1 r1.out, p3, ?_⟩
  rw [List.replicate_succ, run_cons, call_get_of_new hp he,
    calls_gets_of_equal n rfl]
  have hl : r1.disp.latestFrameNumber = (rest.length : Int) := by
    rw [a3]; push_cast; omega
  simp only [p2, a6, a7, a8, hl, List.nil_append, List.singleton_append, a9.1, a9.2.1, a9.2.2]

end DispatcherRun

/-! ## Claims on `push` and `pop` -/

/-- C1: for every `Size ≥ 2` and every state, if `(head + 1) mod Size = tail`
then `push v` returns `false` and leaves `head_`, `tail_` and every slot as they
were, and if `(head + 1) mod Size ≠ tail` then `push v` returns `true`. -/
theorem push_full_iff (T : Type) (Size : Nat) (_hSize : 2 ≤ Size)
    (s : ringbuffer T Size) (v : T) :
    ((s.head_ + 1) % Size = s.tail_ →
      (s.push v).1 = false ∧ (s.push v).2.head_ = s.head_ ∧
        (s.push v).2.tail_ = s.tail_ ∧ (s.push v).2.ring_ = s.ring_) ∧
    ((s.head_ + 1) % Size ≠ s.tail_ → (s.push v).1 = true) := by
  constructor
  · intro h
    simp [ringbuffer.push, ringbuffer.next, h]
  · intro h
    simp [ringbuffer.push, ringbuffer.next, h]

/-- Witness of C1 at `Size = 4`: the full state `head = 3`, `tail = 0` rejects a
push, the state `head = 1`, `tail = 0` accepts it. -/
theorem push_full_iff_witness :
    (2 ≤ 4 ∧ (3 + 1) % 4 = 0 ∧
      ((⟨[1, 2, 3, 0], 3, 0⟩ : ringbuffer Nat 4).push 9).1 = false ∧
      ((⟨[1, 2, 3, 0], 3, 0⟩ : ringbuffer Nat 4).push 9).2.head_ = 3 ∧
      ((⟨[1, 2, 3, 0], 3, 0⟩ : ringbuffer Nat 4).push 9).2.tail_ = 0 ∧
      ((⟨[1, 2, 3, 0], 3, 0⟩ : ringbuffer Nat 4).push 9).2.ring_ = [1, 2, 3, 0]) ∧
    ((1 + 1) % 4 ≠ 0 ∧ ((⟨[1, 0, 0, 0], 1, 0⟩ : ringbuffer Nat 4).push 9).1 = true) :=
  ⟨⟨by decide, by decide,
      (push_full_iff Nat 4 (by decide) ⟨[1, 2, 3, 0], 3, 0⟩ 9).1 (by decide)⟩,
    ⟨by decide, (push_full_iff Nat 4 (by decide) ⟨[1, 0, 0, 0], 1, 0⟩ 9).2 (by decide)⟩⟩

/-- C2: for every state with `tail = head` and every initial content `out` of
the output argument, `pop` returns `false`, leaves the output argument equal to
`out` and leaves `head_`, `tail_` and every slot as they were; for every state
with `tail ≠ head`, `pop` returns `true`. -/
theorem pop_empty_iff (T : Type) [Inhabited T] (Size : Nat) (s : ringbuffer T Size) (out : T) :
    (s.tail_ = s.head_ →
      (s.pop out).1 = false ∧ (s.pop out).2.1 = out ∧ (s.pop out).2.2.head_ = s.head_ ∧
        (s.pop out).2.2.tail_ = s.tail_ ∧ (s.pop out).2.2.ring_ = s.ring_) ∧
    (s.tail_ ≠ s.head_ → (s.pop out).1 = true) := by
  constructor
  · intro h
    simp [ringbuffer.pop, h]
  · intro h
    simp [ringbuffer.pop, h]

/-- Witness of C2 at `Size = 4`: the empty state `head = tail = 2` rejects a pop
and keeps the output argument, the state `head = 3`, `tail = 2` accepts it. -/
theorem pop_empty_iff_witness :
    ((2 : Nat) = 2 ∧
      ((⟨[1, 2, 3, 0], 2, 2⟩ : ringbuffer Nat 4).pop 7).1 = false ∧
      ((⟨[1, 2, 3, 0], 2, 2⟩ : ringbuffer Nat 4).pop 7).2.1 = 7 ∧
      ((⟨[1, 2, 3, 0], 2, 2⟩ : ringbuffer Nat 4).pop 7).2.2.head_ = 2 ∧
      ((⟨[1, 2, 3, 0], 2, 2⟩ : ringbuffer Nat 4).pop 7).2.2.tail_ = 2 ∧
      ((⟨[1, 2, 3, 0], 2, 2⟩ : ringbuffer Nat 4).pop 7).2.2.ring_ = [1, 2, 3, 0]) ∧
    ((2 : Nat) ≠ 3 ∧ ((⟨[1, 2, 3, 0], 3, 2⟩ : ringbuffer Nat 4).pop 7).1 = true) :=
  ⟨⟨rfl, (pop_empty_iff Nat 4 ⟨[1, 2, 3, 0], 2, 2⟩ 7).1 rfl⟩,
    ⟨by decide, (pop_empty_iff Nat 4 ⟨[1, 2, 3, 0], 3, 2⟩ 7).2 (by decide)⟩⟩

/-! ## Claims on the buffer as a queue -/

/-- C3: for every `Size ≥ 2` the buffer refines the bounded queue of capacity
`Size - 1` under the abstraction `contents`: a freshly constructed buffer is
well-formed and maps to the empty list, every sequence of calls keeps the state
well-formed, and on a well-formed state `push` and `pop` give the results of
`Fifo.enqueue` and `Fifo.dequeue` on the abstraction (a successful `push v`
appends `v` at the back, a failed one changes nothing, a successful `pop`
removes the front element and hands it out, a failed one changes nothing).
Hence after every sequence of calls on a fresh buffer the values handed out by
successful pops are an initial segment of the values whose push succeeded. -/
theorem ringbuffer_refines_fifo (T : Type) [Inhabited T] (Size : Nat) (hSize : 2 ≤ Size) :
    ((ringbuffer.new T Size).wf ∧ (ringbuffer.new T Size).contents = []) ∧
    (∀ (cs : List (Call T)) (out : T), ((Run.start Size out).calls cs).buf.wf) ∧
    (∀ (s : ringbuffer T Size) (v : T), s.wf →
      (s.push v).2.wf ∧
      (s.push v).1 = (Fifo.enqueue (Size - 1) ⟨s.contents⟩ v).1 ∧
      (s.push v).2.contents = (Fifo.enqueue (Size - 1) ⟨s.contents⟩ v).2.items ∧
      ((s.push v).1 = true → (s.push v).2.contents = s.contents ++ [v]) ∧
      ((s.push v).1 = false → (s.push v).2.contents = s.contents)) ∧
    (∀ (s : ringbuffer T Size) (out : T), s.wf →
      (s.pop out).2.2.wf ∧
      (s.pop out).1 = (Fifo.dequeue ⟨s.contents⟩ out).1 ∧
      (s.pop out).2.1 = (Fifo.dequeue ⟨s.contents⟩ out).2.1 ∧
      (s.pop out).2.2.contents = (Fifo.dequeue ⟨s.contents⟩ out).2.2.items ∧
      ((s.pop out).1 = true → s.contents = (s.pop out).2.1 :: (s.pop out).2.2.contents) ∧
      ((s.pop out).1 = false → (s.pop out).2.2.contents = s.contents ∧ (s.pop out).2.1 = out)) ∧
    (∀ (cs : List (Call T)) (out : T),
      ((Run.start Size out).calls cs).popped <+: ((Run.start Size out).calls cs).pushed) := by
  have hS : 0 < Size := by omega
  refine ⟨⟨ringbuffer.wf_new hS, ringbuffer.contents_new⟩,
    fun cs out => Run.wf_start hS out cs, ?_, ?_, ?_⟩
  · intro s v h
    obtain ⟨h1, h2⟩ := ringbuffer.push_refines h v
    refine ⟨ringbuffer.wf_push h v, h1, h2, ?_, ?_⟩
    · intro ht
      rw [h2]
      rw [h1] at ht
      by_cases hlt : s.contents.length < Size - 1
      · simp [Fifo.enqueue, hlt]
      · simp [Fifo.enqueue, hlt] at ht
    · intro hf
      rw [h2]
      rw [h1] at hf
      by_cases hlt : s.contents.length < Size - 1
      · simp [Fifo.enqueue, hlt] at hf
      · simp [Fifo.enqueue, hlt]
  · intro s out h
    obtain ⟨h1, h2, h3⟩ := ringbuffer.pop_refines h out
    refine ⟨ringbuffer.wf_pop h out, h1, h2, h3, ?_, ?_⟩
    · intro ht
      rw [h2, h3]
      rw [h1] at ht
      cases hc : s.contents with
      | nil => simp [Fifo.dequeue, hc] at ht
      | cons x xs => simp [Fifo.dequeue]
    · intro hf
      rw [h2, h3]
      rw [h1] at hf
      cases hc : s.contents with
      | nil => simp [Fifo.dequeue]
      | cons x xs => simp [Fifo.dequeue, hc] at hf
  · intro cs out
    exact ⟨_, Run.queue_start hS out cs⟩

/-- Witness of C3 at `Size = 4`: after `push 1, push 2, pop, push 3, pop` on a
fresh buffer the values handed out are an initial segment of the values pushed. -/
theorem ringbuffer_refines_fifo_witness :
    2 ≤ 4 ∧
    ((Run.start 4 (0 : Nat)).calls
        [Call.push 1, Call.push 2, Call.pop, Call.push 3, Call.pop]).popped
      <+: ((Run.start 4 (0 : Nat)).calls
        [Call.push 1, Call.push 2, Call.pop, Call.push 3, Call.pop]).pushed :=
  ⟨by decide, (ringbuffer_refines_fifo Nat 4 (by decide)).2.2.2.2
    [Call.push 1, Call.push 2, Call.pop, Call.push 3, Call.pop] 0⟩

/-- C4: for every `Size ≥ 2` and every value `v`, on an empty buffer whose
indices sit at any slot (the last slot, where `head` wraps to 0, included)
`push v` returns `true`, the `pop` that follows returns `true` with `v` in the
output argument, and the buffer is empty again; and on a buffer that is not
full and holds `k` elements, `push v` followed by `k + 1` pops succeeds in every
call and hands out `v` in the last pop. -/
theorem push_pop_round_trip (T : Type) [Inhabited T] (Size : Nat) (hSize : 2 ≤ Size)
    (s : ringbuffer T Size) (v out : T)
    (hlen : s.ring_.length = Size) (hhead : s.head_ < Size) (htail : s.tail_ < Size) :
    (s.head_ = s.tail_ →
      (s.push v).1 = true ∧ ((s.push v).2.pop out).1 = true ∧
        ((s.push v).2.pop out).2.1 = v ∧
        ((s.push v).2.pop out).2.2.head_ = ((s.push v).2.pop out).2.2.tail_) ∧
    ((s.head_ + 1) % Size ≠ s.tail_ → ∀ k : Nat, s.live = (k : Int) →
      ((Run.mk s out [] [] []).calls
          (Call.push v :: List.replicate (k + 1) Call.pop)).rets
        = List.replicate (k + 2) true ∧
      ((Run.mk s out [] [] []).calls
          (Call.push v :: List.replicate (k + 1) Call.pop)).out = v ∧
      ((Run.mk s out [] [] []).calls
          (Call.push v :: List.replicate (k + 1) Call.pop)).popped.getLast? = some v) := by
  have h : s.wf := ⟨hlen, hhead, htail⟩
  constructor
  · intro he
    have hc0 : s.contents = [] := by
      apply List.eq_nil_of_length_eq_zero
      rw [ringbuffer.length_contents h]
      exact (ringbuffer.empty_iff_count h).mp he.symm
    obtain ⟨h1, h2⟩ := ringbuffer.push_of_room h v (by rw [hc0]; simpa using hSize)
    rw [hc0, List.nil_append] at h2
    have hw := ringbuffer.wf_push h v
    obtain ⟨h3, h4, h5⟩ := ringbuffer.pop_of_cons hw out h2
    refine ⟨h1, h3, h4, ?_⟩
    have hw2 := ringbuffer.wf_pop hw out
    have := ringbuffer.length_contents hw2
    rw [h5] at this
    exact ((ringbuffer.empty_iff_count hw2).mpr this.symm).symm
  · intro hnf k hk
    have hck : s.count = k := by
      rw [ringbuffer.live_eq_count h] at hk
      exact_mod_cast hk
    have hroom : s.contents.length + 1 < Size := by
      have h1 := ringbuffer.count_lt h
      have h2 : ¬ s.count + 1 = Size := fun e => hnf ((ringbuffer.full_iff_count h).mpr e)
      rw [ringbuffer.length_contents h]; omega
    let r0 : Run T Size := Run.mk s out [] [] []
    have h0 : r0.buf.wf := h
    obtain ⟨a1, a2, a3, a4, a5, a6⟩ := Run.call_push_of_room h0 v hroom
    have hl : (s.contents ++ [v]).length = k + 1 := by
      simp [ringbuffer.length_contents h, hck]
    obtain ⟨b1, b2, b3, b4, b5, b6⟩ :=
      Run.calls_pops (s.contents ++ [v]) [] a1 (by rw [a2]; simp [r0])
    rw [hl] at b3 b5 b6
    rw [Run.calls_cons]
    refine ⟨?_, ?_, ?_⟩
    · rw [b3, a3]; simp [r0, List.replicate_succ]
    · rw [b6]; simp
    · rw [b5, a5]; simp [r0]

/-- Witness of C4 at `Size = 4`.  First the empty buffer sits at the last slot
(`head = tail = 3`), so the push wraps `head` to 0.  Then the buffer holds the
two elements of slots 3 and 0, and the third pop after `push 9` hands out 9. -/
theorem push_pop_round_trip_witness :
    ((2 ≤ 4 ∧ [5, 6, 7, 8].length = 4 ∧ 3 < 4 ∧ (3 : Nat) = 3) ∧
      (((⟨[5, 6, 7, 8], 3, 3⟩ : ringbuffer Nat 4).push 9).1 = true ∧
        (((⟨[5, 6, 7, 8], 3, 3⟩ : ringbuffer Nat 4).push 9).2.pop 0).1 = true ∧
        (((⟨[5, 6, 7, 8], 3, 3⟩ : ringbuffer Nat 4).push 9).2.pop 0).2.1 = 9 ∧
        (((⟨[5, 6, 7, 8], 3, 3⟩ : ringbuffer Nat 4).push 9).2.pop 0).2.2.head_
          = (((⟨[5, 6, 7, 8], 3, 3⟩ : ringbuffer Nat 4).push 9).2.pop 0).2.2.tail_)) ∧
    ((2 ≤ 4 ∧ [5, 6, 7, 8].length = 4 ∧ 1 < 4 ∧ 3 < 4 ∧ (1 + 1) % 4 ≠ 3 ∧
        (⟨[5, 6, 7, 8], 1, 3⟩ : ringbuffer Nat 4).live = ((2 : Nat) : Int)) ∧
      (((Run.mk (⟨[5, 6, 7, 8], 1, 3⟩ : ringbuffer Nat 4) 0 [] [] []).calls
            (Call.push 9 :: List.replicate (2 + 1) Call.pop)).rets
          = List.replicate (2 + 2) true ∧
        ((Run.mk (⟨[5, 6, 7, 8], 1, 3⟩ : ringbuffer Nat 4) 0 [] [] []).calls
            (Call.push 9 :: List.replicate (2 + 1) Call.pop)).out = 9 ∧
        ((Run.mk (⟨[5, 6, 7, 8], 1, 3⟩ : ringbuffer Nat 4) 0 [] [] []).calls
            (Call.push 9 :: List.replicate (2 + 1) Call.pop)).popped.getLast? = some 9)) :=
  ⟨⟨⟨by decide, rfl, by decide, rfl⟩,
      (push_pop_round_trip Nat 4 (by decide) ⟨[5, 6, 7, 8], 3, 3⟩ 9 0 rfl
        (by decide) (by decide)).1 rfl⟩,
    ⟨⟨by decide, rfl, by decide, by decide, by decide, by decide⟩,
      (push_pop_round_trip Nat 4 (by decide) ⟨[5, 6, 7, 8], 1, 3⟩ 9 0 rfl
        (by decide) (by decide)).2 (by decide) 2 (by decide)⟩⟩

/-- C5: for every `Size ≥ 2` and every sequence of calls on a freshly
constructed buffer, the number of successful pushes minus the number of
successful pops equals `(head - tail) mod Size` taken as the non-negative
residue; that number is 0 exactly when `head = tail`, it is `Size - 1` exactly
when `(head + 1) mod Size = tail`, and it is never more than `Size - 1`. -/
theorem live_count_invariant (T : Type) [Inhabited T] (Size : Nat) (hSize : 2 ≤ Size)
    (cs : List (Call T)) (out : T) :
    (((Run.start Size out).calls cs).pushed.length : Int)
        - (((Run.start Size out).calls cs).popped.length : Int)
      = ((Run.start Size out).calls cs).buf.live ∧
    (((Run.start Size out).calls cs).buf.live = 0 ↔
      ((Run.start Size out).calls cs).buf.head_ = ((Run.start Size out).calls cs).buf.tail_) ∧
    (((Run.start Size out).calls cs).buf.live = (Size : Int) - 1 ↔
      (((Run.start Size out).calls cs).buf.head_ + 1) % Size
        = ((Run.start Size out).calls cs).buf.tail_) ∧
    ((Run.start Size out).calls cs).buf.live ≤ (Size : Int) - 1 := by
  have hS : 0 < Size := by omega
  have hw := Run.wf_start hS out cs
  have hq := Run.queue_start hS out cs
  have hl := ringbuffer.length_contents hw
  have hlive := ringbuffer.live_eq_count hw
  have hfull := ringbuffer.full_iff_count hw
  have hempty := ringbuffer.empty_iff_count hw
  have hlt := ringbuffer.count_lt hw
  have hlen := congrArg List.length hq
  rw [List.length_append, hl] at hlen
  unfold ringbuffer.next at hfull
  rw [hlive]
  refine ⟨by omega, ?_, ?_, by omega⟩
  · constructor
    · intro h0
      exact (hempty.mpr (by omega)).symm
    · intro he
      have := hempty.mp he.symm
      omega
  · constructor
    · intro h0
      exact hfull.mpr (by omega)
    · intro hf
      have := hfull.mp hf
      omega

/-- Witness of C5 at `Size = 4` after `push 1, push 2, pop, push 3`: two
elements are live. -/
theorem live_count_invariant_witness :
    2 ≤ 4 ∧
    ((((Run.start 4 (0 : Nat)).calls
          [Call.push 1, Call.push 2, Call.pop, Call.push 3]).pushed.length : Int)
        - (((Run.start 4 (0 : Nat)).calls
          [Call.push 1, Call.push 2, Call.pop, Call.push 3]).popped.length : Int)
      = ((Run.start 4 (0 : Nat)).calls
          [Call.push 1, Call.push 2, Call.pop, Call.push 3]).buf.live) :=
  ⟨by decide, (live_count_invariant Nat 4 (by decide)
    [Call.push 1, Call.push 2, Call.pop, Call.push 3] 0).1⟩

/-- C6: the usable capacity of a buffer of `Size = N ≥ 2` is `N - 1`.  On a fresh
buffer the pushes of any `N - 1` values `vs` all return `true` and the push of an
`N`-th value `w` returns `false`; the pop that follows returns `true` and hands
out the first value of `vs`; a further push of `d` returns `true`; and the
`N - 1` pops after it all return `true` and hand out the rest of `vs` and then
`d`, in the order they were pushed.  So the pops hand out `vs ++ [d]`, which is
also the list of values whose push succeeded, and the buffer ends empty. -/
theorem capacity_is_size_minus_one (T : Type) [Inhabited T] (N : Nat) (hN : 2 ≤ N)
    (vs : List T) (w d out : T) (hvs : vs.length = N - 1) :
    ((Run.start N out).calls (vs.map Call.push)).rets = List.replicate (N - 1) true ∧
    ((Run.start N out).calls (vs.map Call.push ++ [Call.push w])).rets
      = List.replicate (N - 1) true ++ [false] ∧
    ((Run.start N out).calls (vs.map Call.push ++ [Call.push w, Call.pop])).rets
      = List.replicate (N - 1) true ++ [false, true] ∧
    ((Run.start N out).calls (vs.map Call.push ++ [Call.push w, Call.pop])).popped
      = vs.take 1 ∧
    ((Run.start N out).calls
        (vs.map Call.push ++ [Call.push w, Call.pop, Call.push d]
          ++ List.replicate (N - 1) Call.pop)).rets
      = List.replicate (N - 1) true ++ [false, true, true] ++ List.replicate (N - 1) true ∧
    ((Run.start N out).calls
        (vs.map Call.push ++ [Call.push w, Call.pop, Call.push d]
          ++ List.replicate (N - 1) Call.pop)).popped = vs ++ [d] ∧
    ((Run.start N out).calls
        (vs.map Call.push ++ [Call.push w, Call.pop, Call.push d]
          ++ List.replicate (N - 1) Call.pop)).pushed = vs ++ [d] ∧
    ((Run.start N out).calls
        (vs.map Call.push ++ [Call.push w, Call.pop, Call.push d]
          ++ List.replicate (N - 1) Call.pop)).buf.contents = [] := by
  have hS : 0 < N := by omega
  have h0 : (Run.start N out).buf.wf := ringbuffer.wf_new hS
  have hc0 : (Run.start N out).buf.contents = [] := ringbuffer.contents_new
  obtain ⟨a1, a2, a3, a4, a5, a6⟩ :=
    Run.calls_pushes vs h0 (by rw [hc0, hvs]; simp; omega)
  rw [hc0, List.nil_append] at a2
  rw [hvs] at a3
  rw [show (Run.start N out).rets = [] from rfl, List.nil_append] at a3
  rw [show (Run.start N out).pushed = [] from rfl, List.nil_append] at a4
  rw [show (Run.start N out).popped = [] from rfl] at a5
  have hfull : ((Run.start N out).calls (vs.map Call.push)).buf.contents.length + 1 = N := by
    rw [a2, hvs]; omega
  have b := Run.call_push_of_full a1 w hfull
  obtain ⟨x, xs, rfl⟩ : ∃ x xs, vs = x :: xs := by
    cases vs with
    | nil => simp at hvs; omega
    | cons x xs => exact ⟨x, xs, rfl⟩
  simp only [List.length_cons] at hvs
  have hw1 : ((Run.start N out).calls ((x :: xs).map Call.push ++ [Call.push w])).buf.wf := by
    rw [Run.calls_append, Run.calls_cons, Run.calls_nil, b]; exact a1
  have hc1 : ((Run.start N out).calls ((x :: xs).map Call.push ++ [Call.push w])).buf.contents
      = x :: xs := by
    rw [Run.calls_append, Run.calls_cons, Run.calls_nil, b]; exact a2
  have hr1 : ((Run.start N out).calls ((x :: xs).map Call.push ++ [Call.push w])).rets
      = List.replicate (N - 1) true ++ [false] := by
    rw [Run.calls_append, Run.calls_cons, Run.calls_nil, b]
    show _ ++ [false] = _
    rw [a3]
  have hp1 : ((Run.start N out).calls ((x :: xs).map Call.push ++ [Call.push w])).pushed
      = x :: xs := by
    rw [Run.calls_append, Run.calls_cons, Run.calls_nil, b]; exact a4
  have hq1 : ((Run.start N out).calls ((x :: xs).map Call.push ++ [Call.push w])).popped
      = [] := by
    rw [Run.calls_append, Run.calls_cons, Run.calls_nil, b]; exact a5
  obtain ⟨c1, c2, c3, c4, c5, _⟩ := Run.call_pop_of_cons hw1 hc1
  obtain ⟨d1, d2, d3, d4, d5, _⟩ :=
    Run.call_push_of_room c1 d (by rw [c2]; omega)
  obtain ⟨e1, e2, e3, e4, e5, _⟩ := Run.calls_pops (xs ++ [d]) [] d1 (by rw [d2, c2]; simp)
  have hl : (xs ++ [d]).length = N - 1 := by simp; omega
  rw [hl] at e1 e2 e3 e4 e5
  have e1step : ∀ r : Run T N, r.calls [Call.push w, Call.pop]
      = (r.call (Call.push w)).call Call.pop := fun _ => rfl
  have e3step : ∀ r : Run T N, r.calls [Call.push w, Call.pop, Call.push d]
      = ((r.calls [Call.push w]).call Call.pop).call (Call.push d) := fun _ => rfl
  have eapp : ∀ r : Run T N, (r.calls ((x :: xs).map Call.push)).calls [Call.push w]
      = r.calls ((x :: xs).map Call.push ++ [Call.push w]) :=
    fun r => (Run.calls_append r _ _).symm
  refine ⟨a3, hr1, ?_, ?_, ?_, ?_, ?_, ?_⟩
  · rw [Run.calls_append, e1step, ← Run.calls_nil (Run.call _ (Call.push w)),
      ← Run.calls_cons, eapp, c3, hr1]; simp
  · rw [Run.calls_append, e1step, ← Run.calls_nil (Run.call _ (Call.push w)),
      ← Run.calls_cons, eapp, c5, hq1]; simp
  · rw [Run.calls_append, Run.calls_append, e3step, eapp, e3, d3, c3, hr1]; simp
  · rw [Run.calls_append, Run.calls_append, e3step, eapp, e5, d5, c5, hq1]; simp
  · rw [Run.calls_append, Run.calls_append, e3step, eapp, e4, d4, c4, hp1]
  · rw [Run.calls_append, Run.calls_append, e3step, eapp, e2]

/-- Witness of C6, the scenario of the spec at `N = 4` with the values
`A, B, C, D = 1, 2, 3, 4`: push A, B, C succeed, push D fails, pop hands out A,
push D succeeds, and three pops hand out B, C, D. -/
theorem capacity_is_size_minus_one_witness :
    (2 ≤ 4 ∧ [1, 2, 3].length = 4 - 1) ∧
    ((Run.start 4 (0 : Nat)).calls
        ([1, 2, 3].map Call.push ++ [Call.push 4, Call.pop, Call.push 4]
          ++ List.replicate (4 - 1) Call.pop)).rets
      = List.replicate (4 - 1) true ++ [false, true, true] ++ List.replicate (4 - 1) true ∧
    ((Run.start 4 (0 : Nat)).calls
        ([1, 2, 3].map Call.push ++ [Call.push 4, Call.pop, Call.push 4]
          ++ List.replicate (4 - 1) Call.pop)).popped = [1, 2, 3] ++ [4] :=
  ⟨⟨by decide, rfl⟩,
    (capacity_is_size_minus_one Nat 4 (by decide) [1, 2, 3] 4 4 0 rfl).2.2.2.2.1,
    (capacity_is_size_minus_one Nat 4 (by decide) [1, 2, 3] 4 4 0 rfl).2.2.2.2.2.1⟩


/-! ## Claims on `VideoDispatcher` -/

/-- C7, as the spec states it, fails: on a dispatcher whose `latestFrameNumber`
is `INT_MAX = 2147483647` the `int` increment of `setLatestFrame` overflows and
leaves `-2147483648`, not `latestFrameNumber + 1`. -/
theorem setLatestFrame_at_int_max :
    ((⟨true, 2147483647, -1, 25, "cam", ringbuffer.new Nat 60⟩ :
        VideoDispatcher Nat).setLatestFrame 7).latestFrameNumber = -2147483648 ∧
    ((⟨true, 2147483647, -1, 25, "cam", ringbuffer.new Nat 60⟩ :
        VideoDispatcher Nat).setLatestFrame 7).latestFrameNumber
      ≠ (⟨true, 2147483647, -1, 25, "cam", ringbuffer.new Nat 60⟩ :
        VideoDispatcher Nat).latestFrameNumber + 1 := by
  decide

/-- C7, amended: for every dispatcher state and every frame, `setLatestFrame`
adds exactly 1 to `latestFrameNumber`, whether or not the push succeeded,
provided `latestFrameNumber` is an `int` value below `INT_MAX = 2147483647`;
in every state it leaves `lastFrameRead`, `active`, `fps` and `mjpeg_url` as
they were; when the ring is full the ring (head, tail, slots) is unchanged, so
the new frame is dropped and no buffered frame is overwritten; when the ring is
not full the frame is written to the slot at `head` and `head` advances, which
on a ring whose indices address slots appends the frame behind the frames
already buffered. -/
theorem setLatestFrame_effect (Mat : Type) [Inhabited Mat] (s : VideoDispatcher Mat)
    (frame : Mat) :
    (-2147483648 ≤ s.latestFrameNumber → s.latestFrameNumber < 2147483647 →
      (s.setLatestFrame frame).latestFrameNumber = s.latestFrameNumber + 1) ∧
    (s.setLatestFrame frame).lastFrameRead = s.lastFrameRead ∧
    (s.setLatestFrame frame).active = s.active ∧
    (s.setLatestFrame frame).fps = s.fps ∧
    (s.setLatestFrame frame).mjpeg_url = s.mjpeg_url ∧
    ((s.frameBuffer.head_ + 1) % 60 = s.frameBuffer.tail_ →
      (s.setLatestFrame frame).frameBuffer = s.frameBuffer) ∧
    ((s.frameBuffer.head_ + 1) % 60 ≠ s.frameBuffer.tail_ →
      (s.setLatestFrame frame).frameBuffer
          = { ring_ := s.frameBuffer.ring_.set s.frameBuffer.head_ frame,
              head_ := (s.frameBuffer.head_ + 1) % 60,
              tail_ := s.frameBuffer.tail_ } ∧
        (s.frameBuffer.wf →
          (s.setLatestFrame frame).frameBuffer.contents
            = s.frameBuffer.contents ++ [frame])) := by
  refine ⟨?_, rfl, rfl, rfl, rfl, ?_, ?_⟩
  · intro hlo hhi
    show wrapInt (s.latestFrameNumber + 1) = _
    exact wrapInt_of_range (by omega) (by omega)
  · intro hf
    show (s.frameBuffer.push frame).2 = s.frameBuffer
    rw [ringbuffer.push_eq_of_full frame hf]
  · intro hf
    refine ⟨?_, fun hw => ringbuffer.contents_push hw frame hf⟩
    show (s.frameBuffer.push frame).2 = _
    rw [ringbuffer.push_eq_of_not_full frame hf]
    rfl

/-- Witness of the amended C7: a first frame on a freshly constructed
dispatcher moves the counter from `-1` to `0` and is appended to the empty
ring. -/
theorem setLatestFrame_effect_witness :
    (((-2147483648 : Int) ≤ (VideoDispatcher.new Nat "cam" 25).latestFrameNumber ∧
        (VideoDispatcher.new Nat "cam" 25).latestFrameNumber < 2147483647) ∧
      ((VideoDispatcher.new Nat "cam" 25).setLatestFrame 7).latestFrameNumber
        = (VideoDispatcher.new Nat "cam" 25).latestFrameNumber + 1) ∧
    (((0 + 1) % 60 ≠ 0 ∧ (VideoDispatcher.new Nat "cam" 25).frameBuffer.wf) ∧
      ((VideoDispatcher.new Nat "cam" 25).setLatestFrame 7).frameBuffer.contents
        = (VideoDispatcher.new Nat "cam" 25).frameBuffer.contents ++ [7]) :=
  ⟨⟨⟨by decide, by decide⟩,
      (setLatestFrame_effect Nat (VideoDispatcher.new Nat "cam" 25) 7).1
        (by decide) (by decide)⟩,
    ⟨⟨by decide, ⟨rfl, by decide, by decide⟩⟩,
      ((setLatestFrame_effect Nat (VideoDispatcher.new Nat "cam" 25) 7).2.2.2.2.2.2
        (by decide)).2 ⟨rfl, by decide, by decide⟩⟩⟩

/-- C8: for every dispatcher state, `getLatestFrame` returns the sentinel `-1`
when `latestFrameNumber = lastFrameRead`, and also when the counters differ but
the ring is empty (`tail = head`); in both cases the output frame and the whole
state (ring, counters and the other members) are as before the call. -/
theorem getLatestFrame_sentinel (Mat : Type) [Inhabited Mat] (s : VideoDispatcher Mat)
    (frame : Mat) :
    (s.latestFrameNumber = s.lastFrameRead → s.getLatestFrame frame = (-1, frame, s)) ∧
    (s.latestFrameNumber ≠ s.lastFrameRead → s.frameBuffer.tail_ = s.frameBuffer.head_ →
      s.getLatestFrame frame = (-1, frame, s)) := by
  constructor
  · intro h
    simp [VideoDispatcher.getLatestFrame, h]
  · intro h he
    simp [VideoDispatcher.getLatestFrame, h, ringbuffer.pop_eq_of_empty frame he]

/-- Witness of C8: a fresh dispatcher has equal counters; a dispatcher with
differing counters and an empty ring also answers with the sentinel. -/
theorem getLatestFrame_sentinel_witness :
    (((-1 : Int) = -1) ∧
      (VideoDispatcher.new Nat "cam" 25).getLatestFrame 3
        = (-1, 3, VideoDispatcher.new Nat "cam" 25)) ∧
    (((4 : Int) ≠ 2 ∧ (5 : Nat) = 5) ∧
      (⟨true, 4, 2, 25, "cam", ⟨List.replicate 60 0, 5, 5⟩⟩ : VideoDispatcher Nat).getLatestFrame 3
        = (-1, 3, ⟨true, 4, 2, 25, "cam", ⟨List.replicate 60 0, 5, 5⟩⟩)) :=
  ⟨⟨rfl, (getLatestFrame_sentinel Nat (VideoDispatcher.new Nat "cam" 25) 3).1 rfl⟩,
    ⟨⟨by decide, rfl⟩,
      (getLatestFrame_sentinel Nat ⟨true, 4, 2, 25, "cam", ⟨List.replicate 60 0, 5, 5⟩⟩ 3).2
        (by decide) rfl⟩⟩

/-- C9: for every dispatcher state with `latestFrameNumber ≠ lastFrameRead` and
a non-empty ring, `getLatestFrame` writes the slot at `tail` to the output (on a
ring whose indices address slots this is the front of the buffered frames, and
the rest stays buffered), advances `tail` by one slot and leaves `head` and the
slots alone, sets `lastFrameRead` to `latestFrameNumber`, leaves
`latestFrameNumber` unchanged, and returns that same value. -/
theorem getLatestFrame_delivers (Mat : Type) [Inhabited Mat] (s : VideoDispatcher Mat)
    (frame : Mat) (hnew : s.latestFrameNumber ≠ s.lastFrameRead)
    (hne : s.frameBuffer.tail_ ≠ s.frameBuffer.head_) :
    (s.getLatestFrame frame).2.1 = s.frameBuffer.ring_.getD s.frameBuffer.tail_ default ∧
    (s.frameBuffer.wf →
      s.frameBuffer.contents
        = (s.getLatestFrame frame).2.1 :: (s.getLatestFrame frame).2.2.frameBuffer.contents) ∧
    (s.getLatestFrame frame).2.2.frameBuffer.tail_ = (s.frameBuffer.tail_ + 1) % 60 ∧
    (s.getLatestFrame frame).2.2.frameBuffer.head_ = s.frameBuffer.head_ ∧
    (s.getLatestFrame frame).2.2.frameBuffer.ring_ = s.frameBuffer.ring_ ∧
    (s.getLatestFrame frame).2.2.lastFrameRead = s.latestFrameNumber ∧
    (s.getLatestFrame frame).2.2.latestFrameNumber = s.latestFrameNumber ∧
    (s.getLatestFrame frame).1 = s.latestFrameNumber ∧
    (s.getLatestFrame frame).1 = (s.getLatestFrame frame).2.2.lastFrameRead := by
  have hp := ringbuffer.pop_eq_of_not_empty frame hne
  have hg : s.getLatestFrame frame
      = (s.latestFrameNumber, (s.frameBuffer.pop frame).2.1,
          { s with frameBuffer := (s.frameBuffer.pop frame).2.2,
                   lastFrameRead := s.latestFrameNumber }) := by
    simp [VideoDispatcher.getLatestFrame, hnew, hp]
  refine ⟨?_, ?_, ?_, ?_, ?_, ?_, ?_, ?_, ?_⟩
  · rw [hg, hp]
  · intro hw
    rw [hg]
    exact ringbuffer.contents_pop hw frame hne
  · rw [hg, hp]; rfl
  · rw [hg, hp]
  · rw [hg, hp]
  · rw [hg]
  · rw [hg]
  · rw [hg]
  · rw [hg]

/-- Witness of C9: after one `setLatestFrame 7` on a fresh dispatcher the call
hands out frame 7 and returns the counter value 0. -/
theorem getLatestFrame_delivers_witness :
    (((VideoDispatcher.new Nat "cam" 25).setLatestFrame 7).latestFrameNumber
        ≠ ((VideoDispatcher.new Nat "cam" 25).setLatestFrame 7).lastFrameRead ∧
      ((VideoDispatcher.new Nat "cam" 25).setLatestFrame 7).frameBuffer.tail_
        ≠ ((VideoDispatcher.new Nat "cam" 25).setLatestFrame 7).frameBuffer.head_) ∧
    ((((VideoDispatcher.new Nat "cam" 25).setLatestFrame 7).getLatestFrame 3).2.1
        = (((VideoDispatcher.new Nat "cam" 25).setLatestFrame 7).frameBuffer.ring_).getD
            ((VideoDispatcher.new Nat "cam" 25).setLatestFrame 7).frameBuffer.tail_ default) :=
  ⟨⟨by decide, by decide⟩,
    (getLatestFrame_delivers Nat ((VideoDispatcher.new Nat "cam" 25).setLatestFrame 7) 3
      (by decide) (by decide)).1⟩

/-- C10: for every dispatcher state, reachable or not, when `getLatestFrame` is
called twice in a row the second call returns the sentinel `-1` and leaves the
output frame and the state as the first call left them. -/
theorem getLatestFrame_twice (Mat : Type) [Inhabited Mat] (s : VideoDispatcher Mat)
    (frame : Mat) :
    ((s.getLatestFrame frame).2.2.getLatestFrame (s.getLatestFrame frame).2.1).1 = -1 ∧
    ((s.getLatestFrame frame).2.2.getLatestFrame (s.getLatestFrame frame).2.1).2.1
      = (s.getLatestFrame frame).2.1 ∧
    ((s.getLatestFrame frame).2.2.getLatestFrame (s.getLatestFrame frame).2.1).2.2
      = (s.getLatestFrame frame).2.2 := by
  by_cases hnew : s.latestFrameNumber = s.lastFrameRead
  · have h1 : s.getLatestFrame frame = (-1, frame, s) := by
      simp [VideoDispatcher.getLatestFrame, hnew]
    rw [h1]
    simp only
    rw [h1]
    exact ⟨rfl, rfl, rfl⟩
  · by_cases he : s.frameBuffer.tail_ = s.frameBuffer.head_
    · have h1 : s.getLatestFrame frame = (-1, frame, s) := by
        simp [VideoDispatcher.getLatestFrame, hnew, ringbuffer.pop_eq_of_empty frame he]
      rw [h1]
      simp only
      rw [h1]
      exact ⟨rfl, rfl, rfl⟩
    · have hp := ringbuffer.pop_eq_of_not_empty frame he
      have h1 : s.getLatestFrame frame
          = (s.latestFrameNumber, (s.frameBuffer.pop frame).2.1,
              { s with frameBuffer := (s.frameBuffer.pop frame).2.2,
                       lastFrameRead := s.latestFrameNumber }) := by
        simp [VideoDispatcher.getLatestFrame, hnew, hp]
      rw [h1]
      simp [VideoDispatcher.getLatestFrame]

/-! ## Claims on a dispatcher in sequential use -/

/-- C11, as the spec states it, fails: on a freshly constructed dispatcher,
after a single `setLatestFrame 7` the first `getLatestFrame` returns 0, so it
does not return frame number 1. -/
theorem first_frame_number_is_not_one :
    (((VideoDispatcher.new Nat "cam" 25).setLatestFrame 7).getLatestFrame 0).1 = 0 ∧
    ¬ ((((VideoDispatcher.new Nat "cam" 25).setLatestFrame 7).getLatestFrame 0).1 = 1 ∧
        (((VideoDispatcher.new Nat "cam" 25).setLatestFrame 7).getLatestFrame 0).2.1 = 7 ∧
        ((((VideoDispatcher.new Nat "cam" 25).setLatestFrame 7).getLatestFrame 0).2.2.getLatestFrame
          (((VideoDispatcher.new Nat "cam" 25).setLatestFrame 7).getLatestFrame 0).2.1).1 = -1) := by
  decide

/-- C11, amended: on a freshly constructed dispatcher, after a single
`setLatestFrame F1` the first `getLatestFrame` returns frame number 0 and sets
the output frame to `F1`, and the second `getLatestFrame` that follows returns
the sentinel `-1` and leaves `F1` in the output frame. -/
theorem first_frame_scenario (Mat : Type) [Inhabited Mat] (mjpeg_url : String) (fps : Int)
    (F1 out : Mat) :
    (((VideoDispatcher.new Mat mjpeg_url fps).setLatestFrame F1).getLatestFrame out).1 = 0 ∧
    (((VideoDispatcher.new Mat mjpeg_url fps).setLatestFrame F1).getLatestFrame out).2.1 = F1 ∧
    ((((VideoDispatcher.new Mat mjpeg_url fps).setLatestFrame F1).getLatestFrame out).2.2.getLatestFrame
      (((VideoDispatcher.new Mat mjpeg_url fps).setLatestFrame F1).getLatestFrame out).2.1).1
      = -1 ∧
    ((((VideoDispatcher.new Mat mjpeg_url fps).setLatestFrame F1).getLatestFrame out).2.2.getLatestFrame
      (((VideoDispatcher.new Mat mjpeg_url fps).setLatestFrame F1).getLatestFrame out).2.1).2.1
      = F1 :=
  ⟨rfl, rfl, rfl, rfl⟩

/-- C12, where the code departs from it: on a freshly constructed dispatcher,
after `setLatestFrame 7` and then `setLatestFrame 8` the call of
`getLatestFrame` returns 1, the number of the newest frame, but writes frame 7,
the oldest frame buffered, to the output, not frame 8. -/
theorem getLatestFrame_hands_out_oldest :
    ((DispatcherRun.start "cam" 25 (0 : Nat)).calls
        [DispatcherCall.setLatestFrame 7, DispatcherCall.setLatestFrame 8,
          DispatcherCall.getLatestFrame]).rets = [1] ∧
    ((DispatcherRun.start "cam" 25 (0 : Nat)).calls
        [DispatcherCall.setLatestFrame 7, DispatcherCall.setLatestFrame 8,
          DispatcherCall.getLatestFrame]).out = 7 ∧
    ((DispatcherRun.start "cam" 25 (0 : Nat)).calls
        [DispatcherCall.setLatestFrame 7, DispatcherCall.setLatestFrame 8,
          DispatcherCall.getLatestFrame]).out ≠ 8 ∧
    ((DispatcherRun.start "cam" 25 (0 : Nat)).calls
        [DispatcherCall.setLatestFrame 7, DispatcherCall.setLatestFrame 8,
          DispatcherCall.getLatestFrame]).delivered = [(1, 7)] := by
  decide

/-- C13, as the spec states it, fails: after `2147483649` calls of
`setLatestFrame` on a freshly constructed dispatcher the `int` counter has
overflowed, and `latestFrameNumber` is `-2147483648`, not `k - 1 = 2147483648`. -/
theorem setLatestFrame_burst_overflow :
    ((DispatcherRun.start "cam" 25 (0 : Nat)).calls
        ((List.replicate 2147483649 0).map
          DispatcherCall.setLatestFrame)).disp.latestFrameNumber = -2147483648 ∧
    ((DispatcherRun.start "cam" 25 (0 : Nat)).calls
        ((List.replicate 2147483649 0).map
          DispatcherCall.setLatestFrame)).disp.latestFrameNumber
      ≠ (((List.replicate 2147483649 (0 : Nat)).length : Nat) : Int) - 1 := by
  rw [(DispatcherRun.counters_after_sets "cam" 25 (0 : Nat) (List.replicate 2147483649 0)).1,
    List.length_replicate]
  decide

/-- C13, amended: for every `k ≥ 0`, after `k` calls of `setLatestFrame` on a
freshly constructed dispatcher and no call of `getLatestFrame`,
`latestFrameNumber` is `k - 1` provided `k ≤ 2147483648` (so that `k - 1` is at
most `INT_MAX`), `lastFrameRead` is `-1`, and the ring holds exactly `min k 59`
frames, the first `min k 59` frames supplied, in call order: nothing is dropped
while `k ≤ 59`, the ring is full (`(head + 1) mod 60 = tail`) exactly when
`k ≥ 59`, and a further frame is appended when `k < 59` and dropped otherwise,
so the first frame dropped is the 60th. -/
theorem setLatestFrame_burst (Mat : Type) [Inhabited Mat] (mjpeg_url : String) (fps : Int)
    (out : Mat) (frames : List Mat) :
    ((DispatcherRun.start mjpeg_url fps out).calls
        (frames.map DispatcherCall.setLatestFrame)).disp.lastFrameRead = -1 ∧
    (frames.length ≤ 2147483648 →
      ((DispatcherRun.start mjpeg_url fps out).calls
          (frames.map DispatcherCall.setLatestFrame)).disp.latestFrameNumber
        = (frames.length : Int) - 1) ∧
    ((DispatcherRun.start mjpeg_url fps out).calls
        (frames.map DispatcherCall.setLatestFrame)).disp.frameBuffer.contents
      = frames.take 59 ∧
    ((DispatcherRun.start mjpeg_url fps out).calls
        (frames.map DispatcherCall.setLatestFrame)).disp.frameBuffer.contents.length
      = min frames.length 59 ∧
    (frames.length ≤ 59 →
      ((DispatcherRun.start mjpeg_url fps out).calls
          (frames.map DispatcherCall.setLatestFrame)).disp.frameBuffer.contents = frames) ∧
    ((((DispatcherRun.start mjpeg_url fps out).calls
          (frames.map DispatcherCall.setLatestFrame)).disp.frameBuffer.head_ + 1) % 60
        = ((DispatcherRun.start mjpeg_url fps out).calls
          (frames.map DispatcherCall.setLatestFrame)).disp.frameBuffer.tail_
      ↔ 59 ≤ frames.length) ∧
    (∀ frame : Mat,
      ((DispatcherRun.start mjpeg_url fps out).calls
          ((frames ++ [frame]).map DispatcherCall.setLatestFrame)).disp.frameBuffer.contents
        = if frames.length < 59 then frames ++ [frame] else frames.take 59) := by
  have h0 : (DispatcherRun.start mjpeg_url fps out).disp.frameBuffer.wf :=
    ringbuffer.wf_new (by decide)
  have hc0 : (DispatcherRun.start mjpeg_url fps out).disp.frameBuffer.contents = [] :=
    ringbuffer.contents_new
  have key : ∀ fs : List Mat,
      ((DispatcherRun.start mjpeg_url fps out).calls
          (fs.map DispatcherCall.setLatestFrame)).disp.frameBuffer.contents = fs.take 59 := by
    intro fs
    rw [(DispatcherRun.calls_sets fs h0).2.1, hc0]
    simp
  obtain ⟨a1, _, _, _, _, _, _⟩ := DispatcherRun.calls_sets frames h0
  obtain ⟨a3, a4, _, _⟩ := DispatcherRun.counters_after_sets mjpeg_url fps out frames
  have a2 := key frames
  have hfull := ringbuffer.full_iff_count a1
  rw [← ringbuffer.length_contents a1, a2] at hfull
  unfold ringbuffer.next at hfull
  refine ⟨a4, ?_, a2, ?_, ?_, ?_, ?_⟩
  · intro hk
    rw [a3, wrapInt_of_range (by omega) (by omega)]
    omega
  · rw [a2, List.length_take]; omega
  · intro hk
    rw [a2, List.take_of_length_le hk]
  · rw [hfull, List.length_take]; omega
  · intro frame
    rw [key]
    split_ifs with hlt
    · apply List.take_of_length_le
      simp only [List.length_append, List.length_singleton]; omega
    · rw [List.take_append_of_le_length (by omega)]

/-- Witness of the amended C13 at `k = 3`: the counter is 2 and all three
frames are buffered. -/
theorem setLatestFrame_burst_witness :
    ([1, 2, 3].length ≤ 2147483648 ∧
      ((DispatcherRun.start "cam" 25 (0 : Nat)).calls
          ([1, 2, 3].map DispatcherCall.setLatestFrame)).disp.latestFrameNumber
        = (([1, 2, 3].length : Nat) : Int) - 1) ∧
    ([1, 2, 3].length ≤ 59 ∧
      ((DispatcherRun.start "cam" 25 (0 : Nat)).calls
          ([1, 2, 3].map DispatcherCall.setLatestFrame)).disp.frameBuffer.contents
        = [1, 2, 3]) :=
  ⟨⟨by decide, (setLatestFrame_burst Nat "cam" 25 0 [1, 2, 3]).2.1 (by decide)⟩,
    ⟨by decide, (setLatestFrame_burst Nat "cam" 25 0 [1, 2, 3]).2.2.2.2.1 (by decide)⟩⟩

/-! ## Claims on indices and on the `active` flag -/

/-- C15: for every state with `head < Size` and `tail < Size`, `push` never
changes `tail`; when it succeeds it sets `head` to `(head + 1) mod Size` and
writes only the slot at the old `head`, every other slot being unchanged; `pop`
never changes `head` or any slot and when it succeeds it sets `tail` to
`(tail + 1) mod Size`; a call that fails leaves the whole state as it was. -/
theorem indices_only_advance (T : Type) [Inhabited T] (Size : Nat) (s : ringbuffer T Size)
    (v out : T) (_hhead : s.head_ < Size) (_htail : s.tail_ < Size) :
    (s.push v).2.tail_ = s.tail_ ∧
    ((s.push v).1 = true →
      (s.push v).2.head_ = (s.head_ + 1) % Size ∧
      (s.push v).2.ring_ = s.ring_.set s.head_ v ∧
      (∀ i, i ≠ s.head_ → (s.push v).2.ring_[i]? = s.ring_[i]?)) ∧
    ((s.push v).1 = false → (s.push v).2 = s) ∧
    (s.pop out).2.2.head_ = s.head_ ∧
    (s.pop out).2.2.ring_ = s.ring_ ∧
    ((s.pop out).1 = true → (s.pop out).2.2.tail_ = (s.tail_ + 1) % Size) ∧
    ((s.pop out).1 = false → (s.pop out).2.2 = s) := by
  by_cases hf : ringbuffer.next Size s.head_ = s.tail_
  · rw [ringbuffer.push_eq_of_full v hf]
    by_cases he : s.tail_ = s.head_
    · rw [ringbuffer.pop_eq_of_empty out he]
      simp
    · rw [ringbuffer.pop_eq_of_not_empty out he]
      simp [ringbuffer.next]
  · rw [ringbuffer.push_eq_of_not_full v hf]
    have hset : ∀ i, i ≠ s.head_ → (s.ring_.set s.head_ v)[i]? = s.ring_[i]? := by
      intro i hi
      rw [List.getElem?_set]
      simp [Ne.symm hi]
    by_cases he : s.tail_ = s.head_
    · rw [ringbuffer.pop_eq_of_empty out he]
      simpa [ringbuffer.next] using hset
    · rw [ringbuffer.pop_eq_of_not_empty out he]
      simpa [ringbuffer.next] using hset

/-- Witness of C15 at `Size = 4` on the state `head = 3`, `tail = 1`: the push
wraps `head` to 0 and the pop moves `tail` to 2. -/
theorem indices_only_advance_witness :
    ((3 < 4 ∧ 1 < 4) ∧
      ((⟨[5, 6, 7, 8], 3, 1⟩ : ringbuffer Nat 4).push 9).1 = true ∧
      ((⟨[5, 6, 7, 8], 3, 1⟩ : ringbuffer Nat 4).pop 0).1 = true) ∧
    (((⟨[5, 6, 7, 8], 3, 1⟩ : ringbuffer Nat 4).push 9).2.head_ = (3 + 1) % 4 ∧
      ((⟨[5, 6, 7, 8], 3, 1⟩ : ringbuffer Nat 4).push 9).2.ring_ = [5, 6, 7, 8].set 3 9) ∧
    ((⟨[5, 6, 7, 8], 3, 1⟩ : ringbuffer Nat 4).pop 0).2.2.tail_ = (1 + 1) % 4 :=
  ⟨⟨⟨by decide, by decide⟩, by decide, by decide⟩,
    ⟨((indices_only_advance Nat 4 ⟨[5, 6, 7, 8], 3, 1⟩ 9 0 (by decide) (by decide)).2.1
        (by decide)).1,
      ((indices_only_advance Nat 4 ⟨[5, 6, 7, 8], 3, 1⟩ 9 0 (by decide) (by decide)).2.1
        (by decide)).2.1⟩,
    (indices_only_advance Nat 4 ⟨[5, 6, 7, 8], 3, 1⟩ 9 0 (by decide) (by decide)).2.2.2.2.2.1
      (by decide)⟩

/-- C16, as the spec states it, fails: a dispatcher that received one frame and
then had `active` cleared still hands out that frame, returning 0 and changing
the output frame from 3 to 7. -/
theorem getLatestFrame_after_disconnect :
    ({ (VideoDispatcher.new Nat "cam" 25).setLatestFrame 7 with active := false } :
        VideoDispatcher Nat).active = false ∧
    (({ (VideoDispatcher.new Nat "cam" 25).setLatestFrame 7 with active := false } :
        VideoDispatcher Nat).getLatestFrame 3).1 = 0 ∧
    (({ (VideoDispatcher.new Nat "cam" 25).setLatestFrame 7 with active := false } :
        VideoDispatcher Nat).getLatestFrame 3).1 ≠ -1 ∧
    (({ (VideoDispatcher.new Nat "cam" 25).setLatestFrame 7 with active := false } :
        VideoDispatcher Nat).getLatestFrame 3).2.1 = 7 ∧
    (({ (VideoDispatcher.new Nat "cam" 25).setLatestFrame 7 with active := false } :
        VideoDispatcher Nat).getLatestFrame 3).2.1 ≠ 3 := by
  decide

/-- C16, amended: `getLatestFrame` never reads `active`.  For every dispatcher
state with `active = false`, the call returns the sentinel `-1` and leaves the
output frame and the state unchanged when `latestFrameNumber = lastFrameRead` or
the ring is empty; with differing counters and a non-empty ring it returns
`latestFrameNumber` and writes the slot at `tail` to the output; and in every
case the result is the one the same state with `active = true` gives, the flag
apart. -/
theorem getLatestFrame_ignores_active (Mat : Type) [Inhabited Mat] (s : VideoDispatcher Mat)
    (frame : Mat) (_hoff : s.active = false) :
    ((s.latestFrameNumber = s.lastFrameRead ∨ s.frameBuffer.tail_ = s.frameBuffer.head_) →
      s.getLatestFrame frame = (-1, frame, s)) ∧
    (s.latestFrameNumber ≠ s.lastFrameRead → s.frameBuffer.tail_ ≠ s.frameBuffer.head_ →
      (s.getLatestFrame frame).1 = s.latestFrameNumber ∧
      (s.getLatestFrame frame).2.1 = s.frameBuffer.ring_.getD s.frameBuffer.tail_ default) ∧
    (({ s with active := true } : VideoDispatcher Mat).getLatestFrame frame).1
      = (s.getLatestFrame frame).1 ∧
    (({ s with active := true } : VideoDispatcher Mat).getLatestFrame frame).2.1
      = (s.getLatestFrame frame).2.1 ∧
    (({ s with active := true } : VideoDispatcher Mat).getLatestFrame frame).2.2
      = { (s.getLatestFrame frame).2.2 with active := true } := by
  refine ⟨?_, ?_, ?_⟩
  · rintro (h | h)
    · exact VideoDispatcher.getLatestFrame_of_equal frame h
    · exact VideoDispatcher.getLatestFrame_of_empty frame h
  · intro h he
    rw [VideoDispatcher.getLatestFrame_of_new frame h he,
      ringbuffer.pop_eq_of_not_empty frame he]
    exact ⟨rfl, rfl⟩
  · by_cases h : s.latestFrameNumber = s.lastFrameRead
    · simp [VideoDispatcher.getLatestFrame, h]
    · by_cases he : s.frameBuffer.tail_ = s.frameBuffer.head_
      · simp [VideoDispatcher.getLatestFrame, h, ringbuffer.pop_eq_of_empty frame he]
      · simp [VideoDispatcher.getLatestFrame, h, ringbuffer.pop_eq_of_not_empty frame he]

/-- Witness of the amended C16: a fresh dispatcher with `active` cleared has
equal counters and answers with the sentinel. -/
theorem getLatestFrame_ignores_active_witness :
    (({ VideoDispatcher.new Nat "cam" 25 with active := false } : VideoDispatcher Nat).active
        = false ∧
      (({ VideoDispatcher.new Nat "cam" 25 with active := false } :
          VideoDispatcher Nat).latestFrameNumber
        = ({ VideoDispatcher.new Nat "cam" 25 with active := false } :
          VideoDispatcher Nat).lastFrameRead)) ∧
    ({ VideoDispatcher.new Nat "cam" 25 with active := false } :
        VideoDispatcher Nat).getLatestFrame 3
      = (-1, 3, { VideoDispatcher.new Nat "cam" 25 with active := false }) :=
  ⟨⟨rfl, rfl⟩,
    (getLatestFrame_ignores_active Nat
      { VideoDispatcher.new Nat "cam" 25 with active := false } 3 rfl).1 (Or.inl rfl)⟩

/-- C17: for every `Size ≥ 1` and every sequence of calls on a freshly
constructed buffer, the state reached has `head < Size`, `tail < Size` and an
array of `Size` slots, so the slot `push` writes and the slot `pop` reads exist:
the write at `head` takes effect and the read at `tail` finds a slot. -/
theorem index_safety (T : Type) [Inhabited T] (Size : Nat) (hSize : 1 ≤ Size)
    (cs : List (Call T)) (out : T) :
    ((Run.start Size out).calls cs).buf.head_ < Size ∧
    ((Run.start Size out).calls cs).buf.tail_ < Size ∧
    ((Run.start Size out).calls cs).buf.ring_.length = Size ∧
    (∀ v : T,
      (((Run.start Size out).calls cs).buf.ring_.set
          ((Run.start Size out).calls cs).buf.head_ v)[((Run.start Size out).calls cs).buf.head_]?
        = some v) ∧
    (((Run.start Size out).calls cs).buf.ring_[((Run.start Size out).calls cs).buf.tail_]?
      = some (((Run.start Size out).calls cs).buf.ring_.getD
          ((Run.start Size out).calls cs).buf.tail_ default)) := by
  obtain ⟨hl, hh, ht⟩ := Run.wf_start hSize out cs
  refine ⟨hh, ht, hl, ?_, ?_⟩
  · intro v
    rw [List.getElem?_set]
    simp [hl, hh]
  · rw [List.getD_eq_getElem?_getD, List.getElem?_eq_getElem (by rw [hl]; exact ht)]
    rfl

/-- Witness of C17 at `Size = 1`, the smallest size. -/
theorem index_safety_witness :
    1 ≤ 1 ∧
    ((Run.start 1 (0 : Nat)).calls [Call.push 1, Call.pop, Call.push 2]).buf.head_ < 1 ∧
    ((Run.start 1 (0 : Nat)).calls [Call.push 1, Call.pop, Call.push 2]).buf.tail_ < 1 :=
  ⟨by decide,
    (index_safety Nat 1 (by decide) [Call.push 1, Call.pop, Call.push 2] 0).1,
    (index_safety Nat 1 (by decide) [Call.push 1, Call.pop, Call.push 2] 0).2.1⟩

/-! ## Claims on every sequence of dispatcher calls -/

/-- C18: in every state reached from a freshly constructed dispatcher by a
sequence of `setLatestFrame` and `getLatestFrame` calls in which no `int`
increment overflows (at most `2147483648` calls of `setLatestFrame`, so the
counters behave as unbounded integers), `lastFrameRead ≤ latestFrameNumber`,
and when the counters differ the
ring is non-empty, so the `pop` inside `getLatestFrame` returns `true` and the
second `return -1` is never taken; and `getLatestFrame` returns `-1` exactly
when no `setLatestFrame` call was made since the last `getLatestFrame` that
wrote a frame, or since construction. -/
theorem sequential_invariant (Mat : Type) [Inhabited Mat] (mjpeg_url : String) (fps : Int)
    (out : Mat) (cs : List (DispatcherCall Mat))
    (hno : DispatcherRun.setCalls cs ≤ 2147483648) :
    ((DispatcherRun.start mjpeg_url fps out).calls cs).disp.lastFrameRead
      ≤ ((DispatcherRun.start mjpeg_url fps out).calls cs).disp.latestFrameNumber ∧
    (((DispatcherRun.start mjpeg_url fps out).calls cs).disp.latestFrameNumber
        ≠ ((DispatcherRun.start mjpeg_url fps out).calls cs).disp.lastFrameRead →
      ((DispatcherRun.start mjpeg_url fps out).calls cs).disp.frameBuffer.tail_
        ≠ ((DispatcherRun.start mjpeg_url fps out).calls cs).disp.frameBuffer.head_) ∧
    (((DispatcherRun.start mjpeg_url fps out).calls cs).disp.latestFrameNumber
        ≠ ((DispatcherRun.start mjpeg_url fps out).calls cs).disp.lastFrameRead →
      ∀ frame : Mat,
        (((DispatcherRun.start mjpeg_url fps out).calls cs).disp.frameBuffer.pop frame).1
          = true) ∧
    (∀ frame : Mat,
      (((DispatcherRun.start mjpeg_url fps out).calls cs).disp.getLatestFrame frame).1 = -1
        ↔ ((DispatcherRun.start mjpeg_url fps out).calls cs).pending = 0) := by
  have h := DispatcherRun.inv_run mjpeg_url fps out cs hno
  have hd := h.diff
  have hf := h.floor
  have hne : ((DispatcherRun.start mjpeg_url fps out).calls cs).disp.latestFrameNumber
        ≠ ((DispatcherRun.start mjpeg_url fps out).calls cs).disp.lastFrameRead →
      ((DispatcherRun.start mjpeg_url fps out).calls cs).disp.frameBuffer.tail_
        ≠ ((DispatcherRun.start mjpeg_url fps out).calls cs).disp.frameBuffer.head_ :=
    fun hp => h.held (by omega)
  refine ⟨by omega, hne, ?_, ?_⟩
  · intro hp frame
    rw [ringbuffer.pop_eq_of_not_empty frame (hne hp)]
  · intro frame
    constructor
    · intro hret
      by_contra h0
      have hp : ((DispatcherRun.start mjpeg_url fps out).calls cs).disp.latestFrameNumber
          ≠ ((DispatcherRun.start mjpeg_url fps out).calls cs).disp.lastFrameRead := by
        omega
      rw [VideoDispatcher.getLatestFrame_of_new frame hp (hne hp)] at hret
      simp only at hret
      omega
    · intro h0
      rw [VideoDispatcher.getLatestFrame_of_equal frame (by omega)]

/-- Witness of C18 after `set 1, get, set 2, set 3`: the counters differ, so
the ring is non-empty. -/
theorem sequential_invariant_witness :
    (DispatcherRun.setCalls
        [DispatcherCall.setLatestFrame (1 : Nat), DispatcherCall.getLatestFrame,
          DispatcherCall.setLatestFrame 2, DispatcherCall.setLatestFrame 3] ≤ 2147483648) ∧
    (((DispatcherRun.start "cam" 25 (0 : Nat)).calls
          [DispatcherCall.setLatestFrame 1, DispatcherCall.getLatestFrame,
            DispatcherCall.setLatestFrame 2, DispatcherCall.setLatestFrame 3]).disp.latestFrameNumber
        ≠ ((DispatcherRun.start "cam" 25 (0 : Nat)).calls
          [DispatcherCall.setLatestFrame 1, DispatcherCall.getLatestFrame,
            DispatcherCall.setLatestFrame 2, DispatcherCall.setLatestFrame 3]).disp.lastFrameRead) ∧
    (((DispatcherRun.start "cam" 25 (0 : Nat)).calls
          [DispatcherCall.setLatestFrame 1, DispatcherCall.getLatestFrame,
            DispatcherCall.setLatestFrame 2, DispatcherCall.setLatestFrame 3]).disp.frameBuffer.tail_
        ≠ ((DispatcherRun.start "cam" 25 (0 : Nat)).calls
          [DispatcherCall.setLatestFrame 1, DispatcherCall.getLatestFrame,
            DispatcherCall.setLatestFrame 2, DispatcherCall.setLatestFrame 3]).disp.frameBuffer.head_) :=
  ⟨by decide, by decide,
    (sequential_invariant Nat "cam" 25 0
      [DispatcherCall.setLatestFrame 1, DispatcherCall.getLatestFrame,
        DispatcherCall.setLatestFrame 2, DispatcherCall.setLatestFrame 3]
      (by decide)).2.1 (by decide)⟩

/-- C19: for every sequence of `setLatestFrame` and `getLatestFrame` calls on a
freshly constructed dispatcher in which no `int` increment overflows (at most
`2147483648` calls of `setLatestFrame`), every value
returned by a `getLatestFrame` that wrote a frame to the output is `≥ 0`, hence
not the sentinel `-1`, and it is strictly greater than the value returned by
every earlier `getLatestFrame` that wrote a frame. -/
theorem delivered_numbers_increase (Mat : Type) [Inhabited Mat] (mjpeg_url : String)
    (fps : Int) (out : Mat) (cs : List (DispatcherCall Mat))
    (hno : DispatcherRun.setCalls cs ≤ 2147483648) :
    (∀ x ∈ ((DispatcherRun.start mjpeg_url fps out).calls cs).delivered,
      0 ≤ x.1 ∧ x.1 ≠ -1) ∧
    (((DispatcherRun.start mjpeg_url fps out).calls cs).delivered.map Prod.fst).Pairwise
      (fun a b => a < b) := by
  have h := DispatcherRun.inv_run mjpeg_url fps out cs hno
  refine ⟨?_, h.incr⟩
  intro x hx
  have := (h.nums x hx).1
  exact ⟨this, by omega⟩

/-- Witness of C19 after `set 1, get, set 2, set 3, get`: the two calls that
wrote a frame returned 0 and then 2. -/
theorem delivered_numbers_increase_witness :
    (DispatcherRun.setCalls
        [DispatcherCall.setLatestFrame (1 : Nat), DispatcherCall.getLatestFrame,
          DispatcherCall.setLatestFrame 2, DispatcherCall.setLatestFrame 3,
          DispatcherCall.getLatestFrame] ≤ 2147483648) ∧
    (((DispatcherRun.start "cam" 25 (0 : Nat)).calls
        [DispatcherCall.setLatestFrame 1, DispatcherCall.getLatestFrame,
          DispatcherCall.setLatestFrame 2, DispatcherCall.setLatestFrame 3,
          DispatcherCall.getLatestFrame]).delivered.map Prod.fst = [0, 2]) ∧
    (((DispatcherRun.start "cam" 25 (0 : Nat)).calls
        [DispatcherCall.setLatestFrame 1, DispatcherCall.getLatestFrame,
          DispatcherCall.setLatestFrame 2, DispatcherCall.setLatestFrame 3,
          DispatcherCall.getLatestFrame]).delivered.map Prod.fst).Pairwise
      (fun a b => a < b) :=
  ⟨by decide, by decide,
    (delivered_numbers_increase Nat "cam" 25 0
      [DispatcherCall.setLatestFrame 1, DispatcherCall.getLatestFrame,
        DispatcherCall.setLatestFrame 2, DispatcherCall.setLatestFrame 3,
        DispatcherCall.getLatestFrame] (by decide)).2⟩

/-- C20, as the spec states it, fails: after `m = 4294967296` calls of
`setLatestFrame` on a freshly constructed dispatcher the `int` counter has
wrapped back to `-1`, the value of `lastFrameRead`, so the call of
`getLatestFrame` that follows returns the sentinel and delivers no frame; it
does not return `m - 1`. -/
theorem burst_overflow_delivers_nothing :
    ((DispatcherRun.start "cam" 25 (0 : Nat)).calls
        ((List.replicate 4294967296 0).map DispatcherCall.setLatestFrame
          ++ [DispatcherCall.getLatestFrame])).rets = [-1] ∧
    ((DispatcherRun.start "cam" 25 (0 : Nat)).calls
        ((List.replicate 4294967296 0).map DispatcherCall.setLatestFrame
          ++ [DispatcherCall.getLatestFrame])).delivered = [] ∧
    ((DispatcherRun.start "cam" 25 (0 : Nat)).calls
        ((List.replicate 4294967296 0).map DispatcherCall.setLatestFrame
          ++ [DispatcherCall.getLatestFrame])).rets
      ≠ [(((List.replicate 4294967296 (0 : Nat)).length : Nat) : Int) - 1] := by
  have hwrap : wrapInt (-1 + (((List.replicate 4294967296 (0 : Nat)).length : Nat) : Int))
      = -1 := by
    rw [List.length_replicate]
    decide
  have h := DispatcherRun.get_after_wrapped_sets "cam" 25 (0 : Nat)
    (List.replicate 4294967296 0) hwrap
  refine ⟨h.1, h.2, ?_⟩
  rw [h.1, List.length_replicate]
  decide

/-- C20, amended: for every `m` with `1 ≤ m ≤ 2147483648` (so that `m - 1` is
at most `INT_MAX`), after `m` calls of `setLatestFrame` on a freshly constructed
dispatcher, `n + 1` calls of `getLatestFrame` in a row deliver exactly one
frame, the first frame supplied, returned with number `m - 1`, and then return
only the sentinel; `min m 59 - 1` frames stay in the ring, and one of them is
delivered only after a later `setLatestFrame` (the next delivery is the second
frame supplied, or the later frame when `m = 1`, with number `m` when
`m < 2147483648`).  In general, after any sequence of calls, a call of
`getLatestFrame` that writes a frame removes exactly the front frame from the
ring and sets `lastFrameRead` to `latestFrameNumber`, which is the number of the
last frame supplied as long as no increment has overflowed. -/
theorem burst_delivers_once (Mat : Type) [Inhabited Mat] (mjpeg_url : String) (fps : Int)
    (out : Mat) (frames : List Mat) (hm : 1 ≤ frames.length)
    (hmax : frames.length ≤ 2147483648) (n : Nat) :
    ((DispatcherRun.start mjpeg_url fps out).calls
        (frames.map DispatcherCall.setLatestFrame
          ++ List.replicate (n + 1) DispatcherCall.getLatestFrame)).rets
      = ((frames.length : Int) - 1) :: List.replicate n (-1) ∧
    ((DispatcherRun.start mjpeg_url fps out).calls
        (frames.map DispatcherCall.setLatestFrame
          ++ List.replicate (n + 1) DispatcherCall.getLatestFrame)).delivered.map Prod.fst
      = [(frames.length : Int) - 1] ∧
    ((DispatcherRun.start mjpeg_url fps out).calls
        (frames.map DispatcherCall.setLatestFrame
          ++ List.replicate (n + 1) DispatcherCall.getLatestFrame)).delivered.map Prod.snd
      = frames.take 1 ∧
    ((DispatcherRun.start mjpeg_url fps out).calls
        (frames.map DispatcherCall.setLatestFrame
          ++ List.replicate (n + 1) DispatcherCall.getLatestFrame)).disp.frameBuffer.contents
      = (frames.take 59).tail ∧
    ((DispatcherRun.start mjpeg_url fps out).calls
        (frames.map DispatcherCall.setLatestFrame
          ++ List.replicate (n + 1)
            DispatcherCall.getLatestFrame)).disp.frameBuffer.contents.length
      = min frames.length 59 - 1 ∧
    (∀ g : Mat,
      ((DispatcherRun.start mjpeg_url fps out).calls
          ((frames.map DispatcherCall.setLatestFrame
            ++ List.replicate (n + 1) DispatcherCall.getLatestFrame)
            ++ [DispatcherCall.setLatestFrame g,
              DispatcherCall.getLatestFrame])).delivered.map Prod.snd
        = (frames ++ [g]).take 2 ∧
      (frames.length < 2147483648 →
        ((DispatcherRun.start mjpeg_url fps out).calls
            ((frames.map DispatcherCall.setLatestFrame
              ++ List.replicate (n + 1) DispatcherCall.getLatestFrame)
              ++ [DispatcherCall.setLatestFrame g,
                DispatcherCall.getLatestFrame])).delivered.map Prod.fst
          = [(frames.length : Int) - 1, (frames.length : Int)])) ∧
    (∀ (cs : List (DispatcherCall Mat)) (frame : Mat),
      DispatcherRun.wrote ((DispatcherRun.start mjpeg_url fps out).calls cs).disp frame = true →
      ((DispatcherRun.start mjpeg_url fps out).calls cs).disp.frameBuffer.contents
        = (((DispatcherRun.start mjpeg_url fps out).calls cs).disp.getLatestFrame frame).2.1
          :: (((DispatcherRun.start mjpeg_url fps out).calls cs).disp.getLatestFrame
              frame).2.2.frameBuffer.contents ∧
      (((DispatcherRun.start mjpeg_url fps out).calls cs).disp.getLatestFrame
          frame).2.2.lastFrameRead
        = ((DispatcherRun.start mjpeg_url fps out).calls cs).disp.latestFrameNumber ∧
      (((DispatcherRun.start mjpeg_url fps out).calls cs).disp.getLatestFrame frame).1
        = ((DispatcherRun.start mjpeg_url fps out).calls cs).disp.latestFrameNumber ∧
      (DispatcherRun.setCalls cs ≤ 2147483648 →
        (((DispatcherRun.start mjpeg_url fps out).calls cs).disp.getLatestFrame
            frame).2.2.lastFrameRead
          = (((DispatcherRun.start mjpeg_url fps out).calls cs).supplied.length : Int) - 1)) := by
  obtain ⟨first, rest, rfl⟩ : ∃ first rest, frames = first :: rest := by
    cases frames with
    | nil => simp at hm
    | cons a l => exact ⟨a, l, rfl⟩
  simp only [List.length_cons] at hmax
  obtain ⟨fb, hw, hc, hrun⟩ :=
    DispatcherRun.calls_burst mjpeg_url fps out first rest n hmax
  have hlen : (((first :: rest).length : Nat) : Int) - 1 = (rest.length : Int) := by
    simp only [List.length_cons]; push_cast; omega
  refine ⟨?_, ?_, ?_, ?_, ?_, ?_, ?_⟩
  · rw [hrun, hlen]
  · rw [hrun, hlen]; rfl
  · rw [hrun]; rfl
  · rw [hrun]; exact hc
  · rw [hrun]
    show fb.contents.length = _
    rw [hc, List.length_take, List.length_cons]
    omega
  · intro g
    rw [DispatcherRun.run_append, hrun, DispatcherRun.run_cons, DispatcherRun.run_cons,
      DispatcherRun.run_nil]
    have hroom : fb.contents.length + 1 < 60 := by
      rw [hc, List.length_take]; omega
    obtain ⟨_, q2⟩ := ringbuffer.push_of_room hw g hroom
    obtain ⟨tl, htl⟩ := DispatcherRun.take_append_head rest g
    rw [hc, htl] at q2
    have hw2 := ringbuffer.wf_push hw g
    have he2 := DispatcherRun.not_empty_of_contents hw2 q2
    have hp2 : wrapInt ((rest.length : Int) + 1) ≠ (rest.length : Int) :=
      wrapInt_succ_ne _
    rw [DispatcherRun.call_get_of_new (by exact hp2) (by exact he2)]
    obtain ⟨_, v2, _⟩ := ringbuffer.pop_of_cons hw2 first q2
    constructor
    · simp only [DispatcherRun.call, VideoDispatcher.setLatestFrame, List.map_append,
        List.map_cons, List.map_nil, List.singleton_append]
      have v3 : ((fb.push g).2.pop first).2.1 = rest.head?.getD g := v2
      rw [v3]
      cases rest <;> rfl
    · intro hlt
      simp only [List.length_cons] at hlt
      simp only [DispatcherRun.call, VideoDispatcher.setLatestFrame, List.map_append,
        List.map_cons, List.map_nil, List.singleton_append, List.length_cons]
      rw [wrapInt_of_range (by omega) (by omega), List.cons.injEq, List.cons.injEq]
      refine ⟨by push_cast; omega, by push_cast; omega, rfl⟩
  · intro cs frame hwrote
    obtain ⟨hp, he⟩ := (DispatcherRun.wrote_iff _ frame).mp hwrote
    have hring := DispatcherRun.wf_run mjpeg_url fps out cs
    rw [VideoDispatcher.getLatestFrame_of_new frame hp he]
    exact ⟨ringbuffer.contents_pop hring frame he, rfl, rfl,
      fun hno => (DispatcherRun.inv_run mjpeg_url fps out cs hno).latest⟩

/-- Witness of the amended C20 with the three frames 1, 2, 3 and two reads: the
first read returns 2 with frame 1, the second returns the sentinel, and frames
2 and 3 stay in the ring. -/
theorem burst_delivers_once_witness :
    (1 ≤ [1, 2, 3].length ∧ [1, 2, 3].length ≤ 2147483648) ∧
    ((DispatcherRun.start "cam" 25 (0 : Nat)).calls
        ([1, 2, 3].map DispatcherCall.setLatestFrame
          ++ List.replicate (1 + 1) DispatcherCall.getLatestFrame)).rets
      = (([1, 2, 3].length : Int) - 1) :: List.replicate 1 (-1) ∧
    ((DispatcherRun.start "cam" 25 (0 : Nat)).calls
        ([1, 2, 3].map DispatcherCall.setLatestFrame
          ++ List.replicate (1 + 1) DispatcherCall.getLatestFrame)).delivered.map Prod.snd
      = [1, 2, 3].take 1 ∧
    ((DispatcherRun.start "cam" 25 (0 : Nat)).calls
        ([1, 2, 3].map DispatcherCall.setLatestFrame
          ++ List.replicate (1 + 1) DispatcherCall.getLatestFrame)).disp.frameBuffer.contents
      = ([1, 2, 3].take 59).tail :=
  ⟨⟨by decide, by decide⟩,
    (burst_delivers_once Nat "cam" 25 0 [1, 2, 3] (by decide) (by decide) 1).1,
    (burst_delivers_once Nat "cam" 25 0 [1, 2, 3] (by decide) (by decide) 1).2.2.1,
    (burst_delivers_once Nat "cam" 25 0 [1, 2, 3] (by decide) (by decide) 1).2.2.2.1⟩

end VideoBuffer

